import Mathlib

/-!
Verification development for the readarr_soul acquisition engine.

Python strings are modelled as lists of characters (ASCII fragment of the
Python semantics: str.lower, the regex classes used by the code, and
str.strip are modelled on the ASCII range, which covers every literal the
code compares against).  Python floats are modelled as rationals; the only
float operations the code performs on scores are division, max, addition
and order comparisons, whose outcomes on the concrete inputs used below do
not depend on rounding.  All I/O (the slskd and Readarr collaborators) is
modelled by explicit oracle arguments.
-/

namespace RSoul

/-- Python str modelled as a list of characters. -/
abbrev Str := List Char

/-- The characters of the regex class \s, restricted to ASCII
(space, tab, newline, carriage return, vertical tab, form feed). -/
def isSpaceCh (c : Char) : Bool :=
  c = ' ' || c = '\t' || c = '\n' || c = '\r' || c = '\x0b' || c = '\x0c'

/-- The characters of the regex class \w, restricted to ASCII:
letters, digits and underscore. -/
def isWordCh (c : Char) : Bool :=
  ('a' ≤ c && c ≤ 'z') || ('A' ≤ c && c ≤ 'Z') || ('0' ≤ c && c ≤ '9') || c = '_'

/-- The 26 uppercase/lowercase ASCII letter pairs, used to model str.lower. -/
def upperPairs : List (Char × Char) :=
  [('A', 'a'), ('B', 'b'), ('C', 'c'), ('D', 'd'), ('E', 'e'), ('F', 'f'),
   ('G', 'g'), ('H', 'h'), ('I', 'i'), ('J', 'j'), ('K', 'k'), ('L', 'l'),
   ('M', 'm'), ('N', 'n'), ('O', 'o'), ('P', 'p'), ('Q', 'q'), ('R', 'r'),
   ('S', 's'), ('T', 't'), ('U', 'u'), ('V', 'v'), ('W', 'w'), ('X', 'x'),
   ('Y', 'y'), ('Z', 'z')]

/-- Python str.lower on one character (ASCII). -/
def pyLowerCh (c : Char) : Char :=
  match upperPairs.find? (fun p => p.1 = c) with
  | some p => p.2
  | none => c

/-- Python str.lower on a string (ASCII). -/
def pyLower (s : Str) : Str := s.map pyLowerCh

/-- One character of the substitution text.replace("_", " "). -/
def usCh (c : Char) : Char := if c = '_' then ' ' else c

/-- One character of the substitution re.sub(r"[^\w\s]", " ", text). -/
def punctCh (c : Char) : Char := if isWordCh c || isSpaceCh c then c else ' '

/-- The character-wise part of normalize_for_matching:
lower-case, then underscores to spaces, then non-word non-space to space. -/
def stepCh (c : Char) : Char := punctCh (usCh (pyLowerCh c))

/-- re.sub(r"\s+", " ", text): every maximal run of whitespace becomes one
single space character. -/
def collapseWS : List Char → List Char
  | [] => []
  | [c] => if isSpaceCh c then [' '] else [c]
  | c1 :: c2 :: rest =>
    if isSpaceCh c1 then
      if isSpaceCh c2 then collapseWS (c2 :: rest)
      else ' ' :: collapseWS (c2 :: rest)
    else c1 :: collapseWS (c2 :: rest)

/-- Remove trailing whitespace (the right half of Python str.strip). -/
def rstrip : List Char → List Char
  | [] => []
  | c :: rest =>
    let r := rstrip rest
    if r = [] ∧ isSpaceCh c then [] else c :: r

/-- No two adjacent whitespace characters (used to characterize the image
of the whitespace-collapsing substitution). -/
def noAdjB : List Char → Bool
  | [] => true
  | [_] => true
  | c1 :: c2 :: rest => (!(isSpaceCh c1 && isSpaceCh c2)) && noAdjB (c2 :: rest)

/-- Python str.strip(): drop leading and trailing whitespace. -/
def pyStrip (l : List Char) : List Char := rstrip (l.dropWhile isSpaceCh)

/-- normalize_for_matching from rsoul/match.py (the local helper inside
book_match; the copy in rsoul/utils.py is identical): lower-case, replace
underscores with spaces, replace non-word non-space characters with spaces,
collapse whitespace runs, strip. -/
def normalize_for_matching (s : Str) : Str :=
  pyStrip (collapseWS (s.map stepCh))

/-- Python s.split(sep) for a one-character separator: keeps empty pieces,
and the empty string splits to one empty piece. -/
def pySplitChar (sep : Char) : List Char → List (List Char)
  | [] => [[]]
  | c :: rest =>
    match pySplitChar sep rest with
    | [] => [[]]
    | w :: ws => if c = sep then [] :: w :: ws else (c :: w) :: ws

/-- Split on every whitespace character (each occurrence separates). -/
def splitEveryWs : List Char → List (List Char)
  | [] => [[]]
  | c :: rest =>
    match splitEveryWs rest with
    | [] => [[]]
    | w :: ws => if isSpaceCh c then [] :: w :: ws else (c :: w) :: ws

/-- Python s.split() with no argument: split on whitespace runs, dropping
empty pieces. -/
def pySplitWs (l : List Char) : List (List Char) :=
  (splitEveryWs l).filter (fun w => w ≠ [])

/-- First occurrence of the pattern sep inside l: the text before it and
the text after it, or none when sep does not occur. -/
def findSplit (sep : List Char) : List Char → Option (List Char × List Char)
  | [] => if sep.isPrefixOf [] then some ([], []) else none
  | c :: rest =>
    if sep.isPrefixOf (c :: rest) then some ([], (c :: rest).drop sep.length)
    else
      match findSplit sep rest with
      | none => none
      | some (pre, post) => some (c :: pre, post)

/-- Python s.split(sep) for a non-empty separator string, fuel-bounded
(fuel at least the length of the string always suffices). -/
def splitOnSubF (sep : List Char) : Nat → List Char → List (List Char)
  | 0, l => [l]
  | fuel + 1, l =>
    match findSplit sep l with
    | none => [l]
    | some (pre, post) => pre :: splitOnSubF sep fuel post

/-- Python s.split(sep) for a non-empty separator string. -/
def splitOnSub (sep : List Char) (l : List Char) : List (List Char) :=
  splitOnSubF sep (l.length + 1) l

/-- Python " ".join(parts). -/
def joinSpace (parts : List (List Char)) : List Char :=
  List.intercalate [' '] parts

/-- Python substring membership, needle in haystack (true for an empty
needle, as in Python). -/
def isSubstr (needle : List Char) : List Char → Bool
  | [] => needle.isPrefixOf []
  | c :: rest => needle.isPrefixOf (c :: rest) || isSubstr needle rest

/-!
difflib.SequenceMatcher(None, a, b).ratio(), modelled for inputs shorter
than 200 characters, where CPython's autojunk heuristic never marks any
character as junk (every string the repository compares is far below that
bound).  The model follows CPython's find_longest_match and
get_matching_blocks; the ratio only needs the total matched size, which is
independent of the traversal order of the block queue.
-/

/-- Best match triple of find_longest_match: start in a, start in b, size. -/
structure FlmBest where
  i : Nat
  j : Nat
  size : Nat
deriving DecidableEq, Repr

/-- Ascending positions of a character in b; models the b2j index. -/
def posOf (b : List Char) (ch : Char) : List Nat :=
  (b.enum.filter (fun p => p.2 = ch)).map (fun p => p.1)

/-- Association lookup with default 0; models j2len.get(k, 0). -/
def lookupD (m : List (Nat × Nat)) (k : Nat) : Nat :=
  match m.find? (fun p => p.1 = k) with
  | some p => p.2
  | none => 0

/-- Inner loop of find_longest_match over the positions of the character
a[i] in b (ascending, so the j at or past bhi breaks the loop). -/
def flmInner (blo bhi i : Nat) (j2len : List (Nat × Nat)) :
    List Nat → List (Nat × Nat) → FlmBest → List (Nat × Nat) × FlmBest
  | [], newj2len, best => (newj2len, best)
  | j :: js, newj2len, best =>
    if j < blo then flmInner blo bhi i j2len js newj2len best
    else if bhi ≤ j then (newj2len, best)
    else
      let k := (if j = 0 then 0 else lookupD j2len (j - 1)) + 1
      let best' := if k > best.size then FlmBest.mk (i + 1 - k) (j + 1 - k) k else best
      flmInner blo bhi i j2len js ((j, k) :: newj2len) best'

/-- Outer loop of find_longest_match over i in range(alo, ahi). -/
def flmOuter (a b : List Char) (blo bhi : Nat) :
    List Nat → List (Nat × Nat) → FlmBest → FlmBest
  | [], _, best => best
  | i :: is, j2len, best =>
    let js := posOf b (a.getD i ' ')
    let r := flmInner blo bhi i j2len js [] best
    flmOuter a b blo bhi is r.1 r.2

/-- Do positions i of a and j of b hold the same character (both in range)? -/
def chEq (a b : List Char) (i j : Nat) : Bool :=
  match a.get? i, b.get? j with
  | some x, some y => x = y
  | _, _ => false

/-- Length of the backward extension of a match (the first while loop of
find_longest_match, with an empty junk set); fuel-bounded, fuel = i always
suffices. -/
def extBackLen (a b : List Char) (alo blo : Nat) : Nat → Nat → Nat → Nat
  | 0, _, _ => 0
  | fuel + 1, i, j =>
    if alo < i && blo < j && chEq a b (i - 1) (j - 1) then
      extBackLen a b alo blo fuel (i - 1) (j - 1) + 1
    else 0

/-- Length of the forward extension of a match (the second while loop of
find_longest_match, with an empty junk set); fuel-bounded. -/
def extFwdLen (a b : List Char) (ahi bhi : Nat) : Nat → Nat → Nat → Nat
  | 0, _, _ => 0
  | fuel + 1, i, j =>
    if i < ahi && j < bhi && chEq a b i j then
      extFwdLen a b ahi bhi fuel (i + 1) (j + 1) + 1
    else 0

/-- find_longest_match(alo, ahi, blo, bhi) with an empty junk set. -/
def find_longest_match (a b : List Char) (alo ahi blo bhi : Nat) : FlmBest :=
  let base := flmOuter a b blo bhi (List.range' alo (ahi - alo)) [] ⟨alo, blo, 0⟩
  let t := extBackLen a b alo blo base.i base.i base.j
  let i1 := base.i - t
  let j1 := base.j - t
  let s1 := base.size + t
  let f := extFwdLen a b ahi bhi ahi (i1 + s1) (j1 + s1)
  ⟨i1, j1, s1 + f⟩

/-- Total size of the matching blocks of get_matching_blocks, fuel-bounded
(fuel = len(a) + len(b) + 1 always suffices, since every recursive call
strictly shrinks the combined range). -/
def matchesSumF (a b : List Char) : Nat → Nat → Nat → Nat → Nat → Nat
  | 0, _, _, _, _ => 0
  | fuel + 1, alo, ahi, blo, bhi =>
    let m := find_longest_match a b alo ahi blo bhi
    if m.size = 0 then 0
    else
      m.size
      + (if alo < m.i && blo < m.j then matchesSumF a b fuel alo m.i blo m.j else 0)
      + (if m.i + m.size < ahi && m.j + m.size < bhi then
           matchesSumF a b fuel (m.i + m.size) ahi (m.j + m.size) bhi else 0)

/-- Total matched size over the whole strings. -/
def matchesSum (a b : List Char) : Nat :=
  matchesSumF a b (a.length + b.length + 1) 0 a.length 0 b.length

/-- difflib.SequenceMatcher(None, a, b).ratio(): 2M/T, and 1.0 when both
strings are empty. -/
def pyRatio (a b : List Char) : ℚ :=
  if a.length + b.length = 0 then 1
  else (2 * (matchesSum a b : ℚ)) / (((a.length + b.length : Nat) : ℚ))

/-!  The Matcher: rsoul/match.py.  -/

/-- A remote file as book_match sees it: only the filename field is read. -/
structure SFile where
  filename : Str
deriving DecidableEq, Repr

/-- verify_filetype from rsoul/match.py: the text after the final dot of
the filename, lower-cased, compared with the text before the first space
of the filetype string (the filetype token is NOT lower-cased here). -/
def verify_filetype (f : SFile) (allowed_filetype : Str) : Bool :=
  let current := pyLower ((pySplitChar '.' f.filename).getLastD [])
  current == (pySplitChar ' ' allowed_filetype).headD []

/-- check_ratio from rsoul/match.py.  When the incoming ratio is below the
minimum and the separator is non-empty, the candidate filename is split on
the separator, only the last n pieces are kept (n = whitespace word count
of the pattern; n = 0 keeps everything, as the Python slice [-0:] does),
re-joined with single spaces, and the direct ratio is recomputed. -/
def check_ratio (sep : List Char) (ratio : ℚ) (book_filename slskd_filename : Str)
    (minimum_match_ratio : ℚ) : ℚ :=
  if ratio < minimum_match_ratio then
    if sep ≠ [] then
      let n := (pySplitWs book_filename).length
      let parts := splitOnSub sep slskd_filename
      let kept := if n = 0 then parts else parts.drop (parts.length - n)
      pyRatio book_filename (joinSpace kept)
    else pyRatio book_filename slskd_filename
  else ratio

/-- title_contained_in_filename, the local helper inside book_match in
rsoul/match.py (which, unlike the copy in rsoul/utils.py, has no guard for
an empty word set): direct substring containment of the normalized title,
or at least 70 percent of the title words present among the filename
words. -/
def title_contained_in_filename (target_title filename : Str) : Bool :=
  let nt := normalize_for_matching target_title
  let nf := normalize_for_matching filename
  if isSubstr nt nf then true
  else
    let tw := (pySplitWs nt).dedup
    let fw := (pySplitWs nf).dedup
    let overlap := (tw.filter (fun w => fw.contains w)).length
    decide ((overlap : ℚ) ≥ (tw.length : ℚ) * (7 / 10))

/-- The primary token of the filetype: text before its first space. -/
def extOf (filetype : Str) : Str := (pySplitChar ' ' filetype).headD []

/-- The four comparison patterns book_match builds for one candidate. -/
def patternsFor (title author filetype : Str) : List Str :=
  let ext := extOf filetype
  [ title ++ (" - ").toList ++ author ++ ('.' :: ext)
  , author ++ (" - ").toList ++ title ++ ('.' :: ext)
  , title ++ ('.' :: ext)
  , author ++ (' ' :: (title ++ ('.' :: ext))) ]

/-- One iteration of the pattern loop of book_match: fold the running
maximum through the direct ratio, the normalized ratio, and the two
check_ratio calls (note the second check_ratio receives the result of the
first one, exactly as the code does). -/
def stepPattern (minRatio : ℚ) (filename : Str) (acc : ℚ) (pattern : Str) : ℚ :=
  let ratio0 := pyRatio pattern filename
  let m1 := max acc ratio0
  let m2 := max m1 (pyRatio (normalize_for_matching pattern) (normalize_for_matching filename))
  let r1 := check_ratio [' '] ratio0 pattern filename minRatio
  let m3 := max m2 r1
  let r2 := check_ratio ['_'] r1 pattern filename minRatio
  max m3 r2

/-- max_ratio of book_match for one candidate filename: the maximum over
the four patterns of all ratio variants, starting from 0. -/
def maxRatioScore (minRatio : ℚ) (title author filetype filename : Str) : ℚ :=
  (patternsFor title author filetype).foldl (stepPattern minRatio filename) 0

/-- final_ratio of book_match for one candidate: max_ratio plus the 0.3
title containment bonus. -/
def candidateScore (minRatio : ℚ) (title author filetype filename : Str) : ℚ :=
  maxRatioScore minRatio title author filetype filename
  + (if title_contained_in_filename title filename then 3 / 10 else 0)

/-- The target book and author names, from target["book"]["title"] and
target["author"]["authorName"]. -/
structure Target where
  title : Str
  author : Str
deriving DecidableEq, Repr

/-- The candidate loop of book_match: fold over the filtered files,
replacing the running best exactly when a score is strictly greater (so a
tie keeps the earlier candidate).  The accumulator starts at best 0 with
no current match. -/
def selLoop (s : SFile → ℚ) (init : ℚ × Option SFile) (l : List SFile) :
    ℚ × Option SFile :=
  l.foldl (fun acc f => if s f > acc.1 then (s f, some f) else acc) init

/-- book_match from rsoul/match.py: filter by filetype, return none when
nothing is left, otherwise fold the candidates keeping the first strictly
better score, and accept only when a candidate was picked, the username is
not ignored, and the best score reaches the minimum. -/
def book_match (target : Target) (slskd_files : List SFile) (username : Str)
    (filetype : Str) (ignored_users : List Str) (minimum_match_ratio : ℚ) :
    Option SFile :=
  let filtered := slskd_files.filter (fun f => verify_filetype f filetype)
  if filtered.isEmpty then none
  else
    let sel := selLoop
      (fun f => candidateScore minimum_match_ratio target.title target.author
        filetype f.filename)
      ((0 : ℚ), none) filtered
    if sel.2 ≠ none ∧ username ∉ ignored_users ∧ sel.1 ≥ minimum_match_ratio then sel.2
    else none

/-- Specification-side selector, written from the amended claim C3: the
first candidate whose score strictly exceeds the threshold and all earlier
scores and is not exceeded by any later score (the threshold argument
accumulates the largest score seen so far, starting at 0 as the loop
does). -/
def firstStrictMax (s : SFile → ℚ) : List SFile → ℚ → Option SFile
  | [], _ => none
  | f :: rest, b =>
    if b < s f ∧ ∀ g ∈ rest, s g ≤ s f then some f
    else firstStrictMax s rest (max b (s f))

/-!
The Download Monitor: monitor_downloads in rsoul/workflow.py and
downloads_all_done in rsoul/download.py.  Statuses are the state strings of
the slskd transfer API; a status of none models a failed status query
(slskd_download_status stores None and reports failure exactly when the
query raised).  Re-submission of a single file (slskd_do_enqueue) is an
oracle from the index of the located file to the optional new transfer id.
Wall-clock time is an explicit now parameter in seconds.
-/

/-- One tracked file of a download record: the fields the monitor reads
and writes (filename, transfer id, last fetched status, retry counter; the
retry key is absent until the first retry, modelled as an Option). -/
structure TrackedFile where
  filename : String
  id : Nat
  status : Option String
  retry : Option Nat
deriving DecidableEq, Repr

/-- A grab-list entry (the fields monitor_downloads reads). -/
structure BookDownload where
  title : String
  username : String
  dir : String
  files : List TrackedFile
  countStart : Nat
  rejectedRetries : Nat
  errorCount : Nat
deriving DecidableEq, Repr

/-- The transfer state counted as fully done. -/
def succState : String := "Completed, Succeeded"

/-- The transfer state counted as remotely queued. -/
def queuedRemState : String := "Queued, Remotely"

/-- The terminal failure states collected into the problem list (the same
list gates the retry logic in monitor_downloads). -/
def failStates : List String :=
  ["Completed, Cancelled", "Completed, TimedOut", "Completed, Errored",
   "Completed, Rejected", "Completed, Aborted"]

/-- The retry-eligible states checked inside the problem loop of
monitor_downloads (same five states, in the order written there). -/
def retryStates : List String :=
  ["Completed, Cancelled", "Completed, TimedOut", "Completed, Errored",
   "Completed, Aborted", "Completed, Rejected"]

/-- The rejected state, treated specially. -/
def rejState : String := "Completed, Rejected"

/-- Classification result of downloads_all_done: the all-done flag, the
problem files in file order as (filename, state) pairs, and the count of
remotely queued files.  An empty problem list models the None return. -/
structure DoneInfo where
  allDone : Bool
  problems : List (String × String)
  remoteQueued : Nat
deriving DecidableEq, Repr

/-- downloads_all_done from rsoul/download.py: files with no status are
skipped entirely; any status other than succeeded clears the all-done
flag; failure states are collected; remotely queued files are counted. -/
def downloads_all_done : List TrackedFile → DoneInfo
  | [] => ⟨true, [], 0⟩
  | f :: rest =>
    let r := downloads_all_done rest
    match f.status with
    | none => r
    | some st =>
      ⟨(st == succState) && r.allDone,
       (if st ∈ failStates then [(f.filename, st)] else []) ++ r.problems,
       (if st = queuedRemState then 1 else 0) + r.remoteQueued⟩

/-- int(len(files) * 1.2), the rejection retry allowance.  Modelled as
exact truncation of 12n/10; this agrees with the float computation for
every realistic file count. -/
def rejectedLimit (n : Nat) : Nat := n * 12 / 10

/-- A single-file re-submission event recorded while processing problems:
the located file index, the retry count at the call, and whether the
enqueue succeeded. -/
structure ReqEvent where
  idx : Nat
  retryAt : Nat
  ok : Bool
deriving DecidableEq, Repr

/-- State threaded through the problem loop. -/
structure ProbState where
  files : List TrackedFile
  rejectedRetries : Nat
  abort : Bool
  requeued : List ReqEvent
deriving Repr

/-- The locate-and-retry step for one problem file: find the first tracked
file with the problem filename, bump its retry count; below 5 attempt a
re-submission (updating id and clearing the status on success), at 5 or on
a failed re-submission signal an abort.  Returns the updated files, the
recorded re-submission events, and the abort flag. -/
def retryStepOn (requeue : Nat → Option Nat) (files : List TrackedFile)
    (evs : List ReqEvent) (fname : String) :
    List TrackedFile × List ReqEvent × Bool :=
  match files.findIdx? (fun tf => tf.filename == fname) with
  | none => (files, evs, false)
  | some j =>
    match files[j]? with
    | none => (files, evs, false)
    | some tf =>
      let newRetry := tf.retry.getD 0 + 1
      let f1 : TrackedFile := { tf with retry := some newRetry }
      if newRetry < 5 then
        match requeue j with
        | some newId =>
          (files.set j { f1 with id := newId, status := none },
           evs ++ [⟨j, newRetry, true⟩], false)
        | none => (files.set j f1, evs ++ [⟨j, newRetry, false⟩], true)
      else (files.set j f1, evs, true)

/-- The problem loop of monitor_downloads.  numProblems is the (constant)
length of the problem list; the current file-list length is read at each
step, as the code does.  A rejected problem first checks total rejection,
then the rejection-retry allowance, then falls through to the retry step.
Statuses read from problem entries are the ones captured at
classification: the loop never resets the status of a problem entry before
that entry is processed, because the located file for an earlier problem
is always at or before that earlier entry in file order. -/
def processProblems (requeue : Nat → Option Nat) (numProblems : Nat) :
    List (String × String) → List TrackedFile → Nat → List ReqEvent → ProbState
  | [], files, rr, evs => ⟨files, rr, false, evs⟩
  | (fname, st) :: rest, files, rr, evs =>
    if st ∈ retryStates then
      if st = rejState then
        if numProblems = files.length then ⟨files, rr, true, evs⟩
        else if rr ≥ rejectedLimit files.length then ⟨files, rr, true, evs⟩
        else
          let r := retryStepOn requeue files evs fname
          if r.2.2 then ⟨r.1, rr + 1, true, r.2.1⟩
          else processProblems requeue numProblems rest r.1 (rr + 1) r.2.1
      else
        let r := retryStepOn requeue files evs fname
        if r.2.2 then ⟨r.1, rr, true, r.2.1⟩
        else processProblems requeue numProblems rest r.1 rr r.2.1
    else processProblems requeue numProblems rest files rr evs

/-- Monitor configuration: the two timeouts and the current time. -/
structure MonitorCfg where
  stalledTimeout : Nat
  remoteQueueTimeout : Nat
  now : Nat
deriving DecidableEq, Repr

/-- Store the freshly fetched status of each file (slskd_download_status). -/
def refreshFiles (files : List TrackedFile) (sts : List (Option String)) :
    List TrackedFile :=
  files.zipWith (fun f s => { f with status := s }) sts

/-- Outcome of one monitor tick for one record: the record if it stays in
the grab list, the failure-counter increment, the unfinished-counter
increment, and the transfer ids cancelled by cancel_and_delete (empty when
no abort happened). -/
structure TickResult where
  kept : Option BookDownload
  failedInc : Nat
  unfinishedInc : Nat
  cancelled : List Nat
deriving Repr

/-- One iteration of the monitor loop body for one grab-list record:
refresh statuses (a failed query bumps error_count), classify, apply the
stalled timeout, then the remote-queue timeout, count the record as
unfinished when not all done, then work through the problem list, aborting
or keeping the (updated) record. -/
def process_record (cfg : MonitorCfg) (requeue : Nat → Option Nat)
    (b : BookDownload) (sts : List (Option String)) : TickResult :=
  let files := refreshFiles b.files sts
  let ec := b.errorCount + (if sts.any (fun s => s.isNone) then 1 else 0)
  let info := downloads_all_done files
  if cfg.stalledTimeout ≤ cfg.now - b.countStart then
    ⟨none, 1, 0, files.map (fun f => f.id)⟩
  else if info.remoteQueued = files.length ∧
      cfg.remoteQueueTimeout ≤ cfg.now - b.countStart then
    ⟨none, 1, 0, files.map (fun f => f.id)⟩
  else
    let unf := if info.allDone then 0 else 1
    if info.problems ≠ [] then
      let ps := processProblems requeue info.problems.length info.problems files
        b.rejectedRetries []
      if ps.abort then ⟨none, 1, unf, ps.files.map (fun f => f.id)⟩
      else
        let b' := { b with files := ps.files,
                           rejectedRetries := ps.rejectedRetries,
                           errorCount := ec }
        ⟨some b', 0, unf, []⟩
    else ⟨some { b with files := files, errorCount := ec }, 0, unf, []⟩

/-- One full pass of the monitor loop over the grab list (the loop walks a
copy, removing aborted records from the original): the surviving records
in order, the total failure increment, and the unfinished count of the
tick.  Each record is paired with its fetched statuses and its
re-submission oracle. -/
def monitor_tick (cfg : MonitorCfg) (records : List BookDownload)
    (inputs : List (List (Option String) × (Nat → Option Nat))) :
    List BookDownload × Nat × Nat :=
  (records.zip inputs).foldl
    (fun (acc : List BookDownload × Nat × Nat) p =>
      let r := process_record cfg p.2.2 p.1 p.2.1
      (acc.1 ++ r.kept.toList, acc.2.1 + r.failedInc, acc.2.2 + r.unfinishedInc))
    ([], 0, 0)

/-!
The search phase of search_and_download in rsoul/search.py, projected to
the queries it issues.  The number of responses a finished search yields
is an oracle from query text to count.
-/

/-- is_blacklisted from rsoul/search.py: the configured blacklist string is
lower-cased and split on commas; the title is skipped when any non-empty
entry occurs (case-insensitively) inside it. -/
def is_blacklisted (blacklistCfg title : Str) : Bool :=
  (splitOnSub [','] (pyLower blacklistCfg)).any
    (fun w => w ≠ [] && isSubstr w (pyLower title))

/-- The searches search_and_download issues, in order: nothing when the
title is blacklisted; the main query author - title; and, exactly when the
main query returns zero responses and the title contains a colon, one
fallback query author - mainTitle, where mainTitle is the text before the
first colon with surrounding whitespace stripped. -/
def searchPhase (blacklistCfg authorName bookTitle : Str)
    (responses : Str → Nat) : List Str :=
  if is_blacklisted blacklistCfg bookTitle then []
  else
    let query := authorName ++ (" - ").toList ++ bookTitle
    if responses query = 0 ∧ isSubstr [':'] bookTitle then
      let mainTitle := pyStrip ((pySplitChar ':' bookTitle).headD [])
      [query, authorName ++ (" - ").toList ++ mainTitle]
    else [query]

/-!
Metadata validation of process_imports in rsoul/postprocess.py, for one
downloaded file.  Reading the mobi/azw3 header, the ISBN lookup, and
reading the epub metadata are I/O; each is modelled by an oracle value
describing its outcome.
-/

/-- Outcome of the Readarr ISBN lookup: the call raised, the result list
was empty, or its first entry carried the given book id. -/
inductive LookupOutcome where
  | error : LookupOutcome
  | empty : LookupOutcome
  | found : Nat → LookupOutcome
deriving DecidableEq, Repr

/-- Outcome of reading a mobi/azw3 header: the read raised, no ISBN field
was present, or an ISBN was present and its lookup had the given
outcome. -/
inductive MobiMeta where
  | readError : MobiMeta
  | noIsbn : MobiMeta
  | isbn : LookupOutcome → MobiMeta
deriving DecidableEq, Repr

/-- Outcome of reading epub metadata: the read raised, no title was
present, or the embedded title was the given string. -/
inductive EpubMeta where
  | readError : EpubMeta
  | noTitle : EpubMeta
  | title : Str → EpubMeta
deriving DecidableEq, Repr

/-- The mobi/azw3 validation branch of process_imports: accept exactly
when an ISBN was extracted and its lookup resolved to the expected book
id; a read error, a missing ISBN, a lookup error, an empty lookup, or a
mismatched id all reject. -/
def validate_mobi (bookId : Nat) : MobiMeta → Bool
  | .readError => false
  | .noIsbn => false
  | .isbn .error => false
  | .isbn .empty => false
  | .isbn (.found foundId) => foundId == bookId

/-- re.sub(r"[^\w\s]", "", text.lower()): lower-case and delete
punctuation (deleted, not replaced by spaces, unlike the Matcher's
normalization). -/
def normTitleEpub (s : Str) : Str :=
  (pyLower s).filter (fun c => isWordCh c || isSpaceCh c)

/-- The epub validation branch of process_imports: accept when the raw
similarity exceeds 0.8, or the punctuation-deleted similarity exceeds
0.85, or the word-set Jaccard overlap exceeds 0.7. -/
def validate_epub (bookTitle : Str) : EpubMeta → Bool
  | .readError => false
  | .noTitle => false
  | .title t =>
    let diff := pyRatio t bookTitle
    let ndiff := pyRatio (normTitleEpub t) (normTitleEpub bookTitle)
    let tw := (pySplitWs (pyLower t)).dedup
    let bw := (pySplitWs (pyLower bookTitle)).dedup
    let inter := (tw.filter (fun w => bw.contains w)).length
    let uni := (tw ++ bw).dedup.length
    let wsim : ℚ := if uni = 0 then 0 else (inter : ℚ) / (uni : ℚ)
    decide (diff > 8 / 10) || decide (ndiff > 85 / 100) || decide (wsim > 7 / 10)

/-- Metadata validation of process_imports, dispatching on the lower-cased
text after the final dot of the filename: mobi/azw3 files go through the
ISBN check, epub files through the title check, every other extension is
accepted unconditionally. -/
def validate_metadata (bookId : Nat) (bookTitle filename : Str)
    (mobi : MobiMeta) (epub : EpubMeta) : Bool :=
  let extension := pyLower ((pySplitChar '.' filename).getLastD [])
  if extension = ("azw3").toList ∨ extension = ("mobi").toList then
    validate_mobi bookId mobi
  else if extension = ("epub").toList then validate_epub bookTitle epub
  else true

/-!  Theorems.  -/

/-- The empty needle is a substring of every string, as in Python. -/
theorem isSubstr_nil (l : List Char) : isSubstr [] l = true := by
  cases l <;> simp [isSubstr, List.isPrefixOf]

/-- C7: metadata validation is fail-closed for mobi/azw3 and open for
unknown extensions.  For a file whose extension (text after the final dot,
lower-cased) is mobi or azw3, validation accepts exactly when an ISBN was
extracted and the library lookup resolved it to the expected book id; no
extractable ISBN, a lookup miss, and a lookup error all reject.  For a
file whose extension is neither mobi, azw3 nor epub, validation accepts
unconditionally. -/
theorem C7_metadata_validation (bookId : Nat) (bookTitle filename : Str)
    (mobi : MobiMeta) (epub : EpubMeta) :
    (pyLower ((pySplitChar '.' filename).getLastD []) = ("mobi").toList ∨
       pyLower ((pySplitChar '.' filename).getLastD []) = ("azw3").toList →
     (validate_metadata bookId bookTitle filename mobi epub = true ↔
        mobi = MobiMeta.isbn (LookupOutcome.found bookId)))
    ∧ (pyLower ((pySplitChar '.' filename).getLastD []) ∉
         [("mobi").toList, ("azw3").toList, ("epub").toList] →
       validate_metadata bookId bookTitle filename mobi epub = true) := by
  constructor
  · intro h
    have hcond : (pyLower ((pySplitChar '.' filename).getLastD []) = ("azw3").toList ∨
        pyLower ((pySplitChar '.' filename).getLastD []) = ("mobi").toList) := h.symm
    unfold validate_metadata
    rw [if_pos hcond]
    cases mobi with
    | readError => simp [validate_mobi]
    | noIsbn => simp [validate_mobi]
    | isbn lk =>
      cases lk with
      | error => simp [validate_mobi]
      | empty => simp [validate_mobi]
      | found foundId =>
        simp only [validate_mobi, beq_iff_eq, MobiMeta.isbn.injEq,
          LookupOutcome.found.injEq]
  · intro h
    simp only [List.mem_cons, List.mem_singleton, not_or] at h
    unfold validate_metadata
    rw [if_neg, if_neg]
    · exact h.2.2.1
    · intro hcon
      rcases h with ⟨h1, h2, _⟩
      rcases hcon with hc | hc
      · exact h2 hc
      · exact h1 hc

/-- Witness for C7 at concrete inputs: a mobi file with a matching lookup
is accepted, and a txt file is accepted with no metadata signal at all. -/
theorem C7_metadata_validation_witness :
    validate_metadata 7 ("t").toList ("book.mobi").toList
      (MobiMeta.isbn (LookupOutcome.found 7)) EpubMeta.noTitle = true
    ∧ validate_metadata 7 ("t").toList ("notes.txt").toList
        MobiMeta.readError EpubMeta.readError = true :=
  ⟨((C7_metadata_validation 7 ("t").toList ("book.mobi").toList
      (MobiMeta.isbn (LookupOutcome.found 7)) EpubMeta.noTitle).1
      (Or.inl (by decide))).mpr rfl,
   (C7_metadata_validation 7 ("t").toList ("notes.txt").toList
      MobiMeta.readError EpubMeta.readError).2 (by decide)⟩

/-- C8: when the title is not blacklisted, the initial search returns zero
results, and the title contains a colon, search_and_download issues exactly
one fallback search whose query is the author name, a spaced dash, and the
stripped portion of the title before the first colon; and when the initial
search returns at least one result or the title has no colon, only the
main query is issued. -/
theorem C8_fallback_search (blacklistCfg authorName bookTitle : Str)
    (responses : Str → Nat)
    (hbl : is_blacklisted blacklistCfg bookTitle = false) :
    (responses (authorName ++ (" - ").toList ++ bookTitle) = 0 →
       isSubstr [':'] bookTitle = true →
       searchPhase blacklistCfg authorName bookTitle responses =
         [authorName ++ (" - ").toList ++ bookTitle,
          authorName ++ (" - ").toList ++
            pyStrip ((pySplitChar ':' bookTitle).headD [])])
    ∧ (responses (authorName ++ (" - ").toList ++ bookTitle) ≠ 0 ∨
         isSubstr [':'] bookTitle = false →
       searchPhase blacklistCfg authorName bookTitle responses =
         [authorName ++ (" - ").toList ++ bookTitle]) := by
  unfold searchPhase
  rw [hbl]
  simp only [Bool.false_eq_true, if_false]
  constructor
  · intro h0 hc
    rw [if_pos ⟨h0, hc⟩]
  · intro h
    rw [if_neg]
    intro hcon
    rcases h with h | h
    · exact h hcon.1
    · rw [hcon.2] at h; cases h

/-- Witness for C8 at the example of the specification: author Bar, title
Foo colon A Subtitle, zero results everywhere: the issued searches are the
main query and the single fallback query Bar - Foo. -/
theorem C8_fallback_search_witness :
    searchPhase [] ("Bar").toList ("Foo: A Subtitle").toList (fun _ => 0) =
      [("Bar - Foo: A Subtitle").toList, ("Bar - Foo").toList] := by
  have h := (C8_fallback_search [] ("Bar").toList ("Foo: A Subtitle").toList
    (fun _ => 0) (by decide)).1 rfl (by decide)
  exact h.trans (by decide)

/-- C10: when the target title normalizes to the empty string, the
containment check of book_match returns true (the empty string is a
substring of everything), so the 0.3 title-containment bonus is added to
every candidate score of that search. -/
theorem C10_empty_title_bonus (minRatio : ℚ) (title author filetype filename : Str)
    (h : normalize_for_matching title = []) :
    title_contained_in_filename title filename = true ∧
    candidateScore minRatio title author filetype filename =
      maxRatioScore minRatio title author filetype filename + 3 / 10 := by
  have hc : title_contained_in_filename title filename = true := by
    unfold title_contained_in_filename
    simp only [h, isSubstr_nil, if_true]
  refine ⟨hc, ?_⟩
  unfold candidateScore
  rw [hc, if_pos rfl]

/-- When every score is at most the threshold, no strict maximum exists. -/
theorem firstStrictMax_none (s : SFile → ℚ) (l : List SFile) (b : ℚ)
    (h : ∀ g ∈ l, s g ≤ b) : firstStrictMax s l b = none := by
  induction l generalizing b with
  | nil => rfl
  | cons f rest ih =>
    unfold firstStrictMax
    rw [if_neg, ih (max b (s f))]
    · intro g hg
      exact le_trans (h g (List.mem_cons_of_mem f hg)) (le_max_left b (s f))
    · rintro ⟨hb, _⟩
      exact absurd hb (not_lt.mpr (h f (List.mem_cons_self f rest)))

/-- When some score strictly exceeds the threshold, a strict maximum
exists. -/
theorem firstStrictMax_isSome (s : SFile → ℚ) (l : List SFile) (b : ℚ)
    (h : ∃ g ∈ l, b < s g) : ∃ y, firstStrictMax s l b = some y := by
  induction l generalizing b with
  | nil =>
    rcases h with ⟨g, hg, _⟩
    cases hg
  | cons f rest ih =>
    unfold firstStrictMax
    by_cases hc : b < s f ∧ ∀ g ∈ rest, s g ≤ s f
    · rw [if_pos hc]
      exact ⟨f, rfl⟩
    · rw [if_neg hc]
      apply ih
      by_cases hex : ∃ g ∈ rest, max b (s f) < s g
      · exact hex
      · exfalso
        push_neg at hex
        have hbf : b < s f := by
          rcases h with ⟨g, hg, hbg⟩
          rcases List.mem_cons.mp hg with hgf | hgr
          · rw [hgf] at hbg; exact hbg
          · have := lt_of_lt_of_le hbg (hex g hgr)
            rcases lt_max_iff.mp this with hb | hf
            · exact absurd hb (lt_irrefl b)
            · exact hf
        have hnall : ¬ ∀ g ∈ rest, s g ≤ s f := fun hall => hc ⟨hbf, hall⟩
        push_neg at hnall
        rcases hnall with ⟨g, hgr, hfg⟩
        have := hex g hgr
        rw [max_eq_right (le_of_lt hbf)] at this
        exact absurd hfg (not_lt.mpr this)

/-- The candidate loop computes exactly the first strict maximum (and the
running best score), for any starting accumulator. -/
theorem selLoop_eq (s : SFile → ℚ) (l : List SFile) (b : ℚ) (cur : Option SFile) :
    selLoop s (b, cur) l =
      (match firstStrictMax s l b with
       | some y => (s y, some y)
       | none => (b, cur)) := by
  induction l generalizing b cur with
  | nil => rfl
  | cons f rest ih =>
    have hfsm : firstStrictMax s (f :: rest) b
        = if b < s f ∧ ∀ g ∈ rest, s g ≤ s f then some f
          else firstStrictMax s rest (max b (s f)) := rfl
    unfold selLoop at ih ⊢
    simp only [List.foldl_cons]
    by_cases hgt : s f > b
    · rw [if_pos hgt, ih (s f) (some f), hfsm]
      by_cases hall : ∀ g ∈ rest, s g ≤ s f
      · rw [if_pos ⟨hgt, hall⟩, firstStrictMax_none s rest (s f) hall]
      · rw [if_neg (fun hc => hall hc.2), max_eq_right (le_of_lt hgt)]
        have hex : ∃ g ∈ rest, s f < s g := by
          push_neg at hall
          exact hall
        rcases firstStrictMax_isSome s rest (s f) hex with ⟨y, hy⟩
        rw [hy]
    · rw [if_neg hgt, ih b cur, hfsm, if_neg (fun hc => hgt hc.1),
        max_eq_left (le_of_not_lt hgt)]

set_option maxRecDepth 100000 in
/-- C3 counterexample: a non-empty filtered candidate list on which the
claim as stated fails.  With the empty filename as the single candidate of
the empty filetype, the username not ignored, and a minimum ratio of 0,
the best candidate score (0) reaches the minimum, yet book_match returns
none: the loop never selects a candidate whose score is not strictly
positive, because the running best starts at 0. -/
theorem C3_counterexample :
    book_match ⟨("a").toList, ("b").toList⟩ [⟨("").toList⟩] ("u").toList
      ("").toList [] 0 = none
    ∧ ([⟨("").toList⟩] : List SFile).filter
        (fun f => verify_filetype f ("").toList) ≠ []
    ∧ (("u").toList ∉ ([] : List Str))
    ∧ candidateScore 0 ("a").toList ("b").toList ("").toList ("").toList ≥ 0 := by
  refine ⟨?_, by decide, by decide, ?_⟩
  · with_unfolding_all decide
  · with_unfolding_all decide

/-- C3 (amended): book_match returns the first candidate (of the filtered
list, in input order) whose score strictly exceeds every earlier score and
is at least every later score — so a later candidate with an equal score
never displaces it — provided such a candidate exists (which requires some
strictly positive score, since the running best starts at 0); the result
passes only when additionally the peer username is not ignored and that
best score is at least the minimum match ratio, and is none otherwise. -/
theorem C3_selection (target : Target) (files : List SFile) (username filetype : Str)
    (ignored : List Str) (mr : ℚ) :
    book_match target files username filetype ignored mr =
      (match firstStrictMax
          (fun f => candidateScore mr target.title target.author filetype f.filename)
          (files.filter (fun f => verify_filetype f filetype)) 0 with
       | none => none
       | some f =>
         if username ∉ ignored ∧
             mr ≤ candidateScore mr target.title target.author filetype f.filename
         then some f else none) := by
  unfold book_match
  by_cases he : (files.filter (fun f => verify_filetype f filetype)).isEmpty
  · simp only [he, if_true]
    rw [List.isEmpty_iff.mp he]
    rfl
  · simp only [he, Bool.false_eq_true, if_false]
    rw [selLoop_eq]
    cases hfs : firstStrictMax
        (fun f => candidateScore mr target.title target.author filetype f.filename)
        (files.filter (fun f => verify_filetype f filetype)) 0 with
    | none => simp
    | some y =>
      simp only [ne_eq, Option.some_ne_none, not_false_eq_true, true_and, ge_iff_le]

set_option maxRecDepth 100000 in
/-- C2 counterexample: the Matcher score is NOT invariant under case
changes of the candidate filename.  Both filenames pass the filetype
filter and differ only in letter case, yet their candidate scores differ:
the lower-case variant reaches ratio 1 through the space-separator
truncation path of check_ratio, which compares raw, case-sensitive
strings, while the upper-case variant does not. -/
theorem C2_counterexample :
    verify_filetype ⟨("z z z z z z z z ab.epub").toList⟩ ("epub").toList = true
    ∧ verify_filetype ⟨("Z Z Z Z Z Z Z Z AB.EPUB").toList⟩ ("epub").toList = true
    ∧ pyLower ("z z z z z z z z ab.epub").toList
        = pyLower ("Z Z Z Z Z Z Z Z AB.EPUB").toList
    ∧ candidateScore (1 / 2) ("ab").toList ("cd").toList ("epub").toList
          ("z z z z z z z z ab.epub").toList
        ≠ candidateScore (1 / 2) ("ab").toList ("cd").toList ("epub").toList
          ("Z Z Z Z Z Z Z Z AB.EPUB").toList := by
  refine ⟨by decide, by decide, by decide, ?_⟩
  with_unfolding_all decide

/-- C2 (amended): the full candidateScore is not invariant under case
changes or space/underscore substitution in the candidate filename (the
direct-ratio and separator-truncation components compare raw strings); the
normalized comparison component is: two filenames that agree after
lower-casing and replacing underscores by spaces have the same
normalize_for_matching image, hence identical normalized-ratio components
against every pattern. -/
theorem C2_normalize_invariant (s1 s2 : Str)
    (h : s1.map (fun c => usCh (pyLowerCh c)) = s2.map (fun c => usCh (pyLowerCh c))) :
    normalize_for_matching s1 = normalize_for_matching s2
    ∧ ∀ pattern : Str,
        pyRatio (normalize_for_matching pattern) (normalize_for_matching s1)
          = pyRatio (normalize_for_matching pattern) (normalize_for_matching s2) := by
  have hmap : ∀ s : Str, s.map stepCh
      = (s.map (fun c => usCh (pyLowerCh c))).map punctCh := by
    intro s
    rw [List.map_map]
    rfl
  have key : s1.map stepCh = s2.map stepCh := by
    rw [hmap s1, hmap s2, h]
  have hn : normalize_for_matching s1 = normalize_for_matching s2 := by
    unfold normalize_for_matching
    rw [key]
  exact ⟨hn, fun pattern => by rw [hn]⟩

/-- Witness for C2 (amended) at a concrete pair: an underscored mixed-case
filename and its spaced lower-case variant normalize identically, so their
normalized ratio against any pattern is identical. -/
theorem C2_normalize_invariant_witness :
    normalize_for_matching ("A_b").toList = normalize_for_matching ("a b").toList
    ∧ pyRatio (normalize_for_matching ("t").toList)
          (normalize_for_matching ("A_b").toList)
        = pyRatio (normalize_for_matching ("t").toList)
          (normalize_for_matching ("a b").toList) :=
  ⟨(C2_normalize_invariant ("A_b").toList ("a b").toList (by decide)).1,
   (C2_normalize_invariant ("A_b").toList ("a b").toList (by decide)).2 ("t").toList⟩

/-- Witness for C10 at a concrete punctuation-only title. -/
theorem C10_empty_title_bonus_witness :
    title_contained_in_filename ("!!!").toList ("x").toList = true ∧
    candidateScore (1 / 2) ("!!!").toList ("a").toList ("epub").toList ("x").toList =
      maxRatioScore (1 / 2) ("!!!").toList ("a").toList ("epub").toList ("x").toList
        + 3 / 10 :=
  C10_empty_title_bonus (1 / 2) ("!!!").toList ("a").toList ("epub").toList
    ("x").toList (by decide)

/-- C4 counterexample: verify_filetype does NOT lower-case the filetype
token.  Here the lower-cased extension equals the lower-cased token, so
the claim as stated demands acceptance, but the function compares against
the raw token EPUB and returns false. -/
theorem C4_counterexample :
    verify_filetype ⟨("a.epub").toList⟩ ("EPUB").toList = false
    ∧ pyLower ((pySplitChar '.' ("a.epub").toList).getLastD [])
        = pyLower ((pySplitChar ' ' ("EPUB").toList).headD []) := by
  refine ⟨by decide, by decide⟩

/-- C4 (amended): verify_filetype returns true exactly when the text after
the final dot of the filename, lower-cased, equals the text before the
first space of the filetype string taken as-is (not lower-cased; the
callers pass lower-cased filetypes); and when this filter leaves no
candidates, book_match returns none. -/
theorem C4_filetype_filter (f : SFile) (allowed : Str) (target : Target)
    (files : List SFile) (username filetype : Str) (ignored : List Str) (mr : ℚ) :
    (verify_filetype f allowed = true ↔
       pyLower ((pySplitChar '.' f.filename).getLastD [])
         = (pySplitChar ' ' allowed).headD [])
    ∧ (files.filter (fun g => verify_filetype g filetype) = [] →
        book_match target files username filetype ignored mr = none) := by
  constructor
  · simp only [verify_filetype]
    exact beq_iff_eq
  · intro h
    unfold book_match
    rw [h]
    rfl

/-- Pointwise retry-count growth between two file lists of equal length. -/
def retryLe (l1 l2 : List TrackedFile) : Prop :=
  l1.length = l2.length ∧
  ∀ (i : Nat) (f g : TrackedFile),
    l1[i]? = some f → l2[i]? = some g → f.retry.getD 0 ≤ g.retry.getD 0

/-- retryLe is reflexive. -/
theorem retryLe_refl (l : List TrackedFile) : retryLe l l := by
  refine ⟨rfl, fun i f g h1 h2 => ?_⟩
  rw [h1] at h2
  cases h2
  exact le_refl _

/-- retryLe is transitive. -/
theorem retryLe_trans {l1 l2 l3 : List TrackedFile}
    (h12 : retryLe l1 l2) (h23 : retryLe l2 l3) : retryLe l1 l3 := by
  refine ⟨h12.1.trans h23.1, fun i f g h1 h3 => ?_⟩
  have hi : i < l2.length := h12.1 ▸ (List.getElem?_eq_some.mp h1).1
  have h2 : l2[i]? = some l2[i] := List.getElem?_eq_getElem hi
  exact le_trans (h12.2 i f _ h1 h2) (h23.2 i _ g h2 h3)

/-- Setting one position to a file with a not-smaller retry count grows
retryLe. -/
theorem retryLe_set {l : List TrackedFile} {j : Nat} {tf x : TrackedFile}
    (hj : l[j]? = some tf) (hle : tf.retry.getD 0 ≤ x.retry.getD 0) :
    retryLe l (l.set j x) := by
  refine ⟨(List.length_set l j x).symm, fun i f g h1 h2 => ?_⟩
  by_cases hij : i = j
  · subst hij
    rw [h1] at hj
    cases hj
    rw [List.getElem?_set_eq (List.getElem?_eq_some.mp h1).1] at h2
    cases h2
    exact hle
  · rw [List.getElem?_set_ne (fun he => hij he.symm)] at h2
    rw [h1] at h2
    cases h2
    exact le_refl _

/-- The retry step preserves the file-list length. -/
theorem retryStepOn_length (requeue : Nat → Option Nat) (files : List TrackedFile)
    (evs : List ReqEvent) (fname : String) :
    (retryStepOn requeue files evs fname).1.length = files.length := by
  rcases hidx : files.findIdx? (fun tf => tf.filename == fname) with _ | j
  · simp only [retryStepOn, hidx]
  · rcases hget : files[j]? with _ | tf
    · simp only [retryStepOn, hidx, hget]
    · simp only [retryStepOn, hidx, hget]
      split
      · split <;> simp [List.length_set]
      · simp [List.length_set]

/-- The retry step only grows retry counts. -/
theorem retryStepOn_retryLe (requeue : Nat → Option Nat) (files : List TrackedFile)
    (evs : List ReqEvent) (fname : String) :
    retryLe files (retryStepOn requeue files evs fname).1 := by
  rcases hidx : files.findIdx? (fun tf => tf.filename == fname) with _ | j
  · simp only [retryStepOn, hidx]
    exact retryLe_refl files
  · rcases hget : files[j]? with _ | tf
    · simp only [retryStepOn, hidx, hget]
      exact retryLe_refl files
    · simp only [retryStepOn, hidx, hget]
      have hle : tf.retry.getD 0 ≤ tf.retry.getD 0 + 1 := Nat.le_succ _
      split
      · split
        · exact retryLe_set hget hle
        · exact retryLe_set hget hle
      · exact retryLe_set hget hle

/-- The retry step keeps every retry count at most 5 when all counts were
at most 4, and keeps them at most 4 when it does not signal an abort. -/
theorem retryStepOn_bound (requeue : Nat → Option Nat) (files : List TrackedFile)
    (evs : List ReqEvent) (fname : String)
    (h4 : ∀ f ∈ files, f.retry.getD 0 ≤ 4) :
    (∀ f ∈ (retryStepOn requeue files evs fname).1, f.retry.getD 0 ≤ 5)
    ∧ ((retryStepOn requeue files evs fname).2.2 = false →
        ∀ f ∈ (retryStepOn requeue files evs fname).1, f.retry.getD 0 ≤ 4) := by
  rcases hidx : files.findIdx? (fun tf => tf.filename == fname) with _ | j
  · simp only [retryStepOn, hidx]
    exact ⟨fun f hf => le_trans (h4 f hf) (by omega), fun _ f hf => h4 f hf⟩
  · rcases hget : files[j]? with _ | tf
    · simp only [retryStepOn, hidx, hget]
      exact ⟨fun f hf => le_trans (h4 f hf) (by omega), fun _ f hf => h4 f hf⟩
    · have htf : tf ∈ files := List.getElem?_mem hget
      have htf4 : tf.retry.getD 0 ≤ 4 := h4 tf htf
      have hmem5 : ∀ x : TrackedFile, x.retry.getD 0 ≤ 5 →
          ∀ f ∈ files.set j x, f.retry.getD 0 ≤ 5 := by
        intro x hx f hf
        rcases List.mem_or_eq_of_mem_set hf with hm | he
        · exact le_trans (h4 f hm) (by omega)
        · rw [he]; exact hx
      have hmem4 : ∀ x : TrackedFile, x.retry.getD 0 ≤ 4 →
          ∀ f ∈ files.set j x, f.retry.getD 0 ≤ 4 := by
        intro x hx f hf
        rcases List.mem_or_eq_of_mem_set hf with hm | he
        · exact h4 f hm
        · rw [he]; exact hx
      simp only [retryStepOn, hidx, hget]
      split
      next hlt =>
        split
        · exact ⟨hmem5 _ (by simp; omega), fun _ => hmem4 _ (by simp; omega)⟩
        · exact ⟨hmem5 _ (by simp; omega), fun hfalse => absurd hfalse (by simp)⟩
      next hge =>
        exact ⟨hmem5 _ (by simp; omega), fun hfalse => absurd hfalse (by simp)⟩

/-- Every re-submission event the retry step appends carries a retry count
below 5. -/
theorem retryStepOn_evs (requeue : Nat → Option Nat) (files : List TrackedFile)
    (evs : List ReqEvent) (fname : String) :
    ∀ e ∈ (retryStepOn requeue files evs fname).2.1, e ∈ evs ∨ e.retryAt < 5 := by
  rcases hidx : files.findIdx? (fun tf => tf.filename == fname) with _ | j
  · simp only [retryStepOn, hidx]
    exact fun e he => Or.inl he
  · rcases hget : files[j]? with _ | tf
    · simp only [retryStepOn, hidx, hget]
      exact fun e he => Or.inl he
    · simp only [retryStepOn, hidx, hget]
      split
      next hlt =>
        split
        · intro e he
          rcases List.mem_append.mp he with h | h
          · exact Or.inl h
          · rw [List.mem_singleton.mp h]
            exact Or.inr hlt
        · intro e he
          rcases List.mem_append.mp he with h | h
          · exact Or.inl h
          · rw [List.mem_singleton.mp h]
            exact Or.inr hlt
      next hge => exact fun e he => Or.inl he

/-- When the retry step does not signal an abort, every event it appends
records a successful re-submission. -/
theorem retryStepOn_evs_ok (requeue : Nat → Option Nat) (files : List TrackedFile)
    (evs : List ReqEvent) (fname : String)
    (hnoab : (retryStepOn requeue files evs fname).2.2 = false) :
    ∀ e ∈ (retryStepOn requeue files evs fname).2.1, e ∈ evs ∨ e.ok = true := by
  revert hnoab
  rcases hidx : files.findIdx? (fun tf => tf.filename == fname) with _ | j
  · simp only [retryStepOn, hidx]
    exact fun _ e he => Or.inl he
  · rcases hget : files[j]? with _ | tf
    · simp only [retryStepOn, hidx, hget]
      exact fun _ e he => Or.inl he
    · simp only [retryStepOn, hidx, hget]
      split
      next hlt =>
        split
        · intro _ e he
          rcases List.mem_append.mp he with h | h
          · exact Or.inl h
          · rw [List.mem_singleton.mp h]
            exact Or.inr rfl
        · intro hfalse
          exact absurd hfalse (by simp)
      next hge =>
        intro hfalse
        exact absurd hfalse (by simp)

/-- The problem loop preserves the file-list length. -/
theorem processProblems_length (requeue : Nat → Option Nat) (numProblems : Nat) :
    ∀ (probs : List (String × String)) (files : List TrackedFile) (rr : Nat)
      (evs : List ReqEvent),
    (processProblems requeue numProblems probs files rr evs).files.length
      = files.length := by
  intro probs
  induction probs with
  | nil => intro files rr evs; rfl
  | cons p rest ih =>
    intro files rr evs
    obtain ⟨fname, st⟩ := p
    simp only [processProblems]
    by_cases h1 : st ∈ retryStates
    · rw [if_pos h1]
      by_cases h2 : st = rejState
      · rw [if_pos h2]
        by_cases h3 : numProblems = files.length
        · rw [if_pos h3]
        · rw [if_neg h3]
          by_cases h4 : rr ≥ rejectedLimit files.length
          · rw [if_pos h4]
          · rw [if_neg h4]
            split
            · exact retryStepOn_length requeue files evs fname
            · rw [ih]
              exact retryStepOn_length requeue files evs fname
      · rw [if_neg h2]
        split
        · exact retryStepOn_length requeue files evs fname
        · rw [ih]
          exact retryStepOn_length requeue files evs fname
    · rw [if_neg h1]
      exact ih files rr evs

/-- The problem loop only grows retry counts. -/
theorem processProblems_retryLe (requeue : Nat → Option Nat) (numProblems : Nat) :
    ∀ (probs : List (String × String)) (files : List TrackedFile) (rr : Nat)
      (evs : List ReqEvent),
    retryLe files (processProblems requeue numProblems probs files rr evs).files := by
  intro probs
  induction probs with
  | nil => intro files rr evs; exact retryLe_refl files
  | cons p rest ih =>
    intro files rr evs
    obtain ⟨fname, st⟩ := p
    simp only [processProblems]
    by_cases h1 : st ∈ retryStates
    · rw [if_pos h1]
      by_cases h2 : st = rejState
      · rw [if_pos h2]
        by_cases h3 : numProblems = files.length
        · rw [if_pos h3]
          exact retryLe_refl files
        · rw [if_neg h3]
          by_cases h4 : rr ≥ rejectedLimit files.length
          · rw [if_pos h4]
            exact retryLe_refl files
          · rw [if_neg h4]
            split
            · exact retryStepOn_retryLe requeue files evs fname
            · exact retryLe_trans (retryStepOn_retryLe requeue files evs fname)
                (ih _ _ _)
      · rw [if_neg h2]
        split
        · exact retryStepOn_retryLe requeue files evs fname
        · exact retryLe_trans (retryStepOn_retryLe requeue files evs fname) (ih _ _ _)
    · rw [if_neg h1]
      exact ih files rr evs

/-- The problem loop keeps every retry count at most 5 when all counts
were at most 4 on entry, and at most 4 when it ends without an abort. -/
theorem processProblems_bound (requeue : Nat → Option Nat) (numProblems : Nat) :
    ∀ (probs : List (String × String)) (files : List TrackedFile) (rr : Nat)
      (evs : List ReqEvent),
    (∀ f ∈ files, f.retry.getD 0 ≤ 4) →
    (∀ f ∈ (processProblems requeue numProblems probs files rr evs).files,
       f.retry.getD 0 ≤ 5)
    ∧ ((processProblems requeue numProblems probs files rr evs).abort = false →
       ∀ f ∈ (processProblems requeue numProblems probs files rr evs).files,
         f.retry.getD 0 ≤ 4) := by
  intro probs
  induction probs with
  | nil =>
    intro files rr evs h4
    exact ⟨fun f hf => le_trans (h4 f hf) (by omega), fun _ f hf => h4 f hf⟩
  | cons p rest ih =>
    intro files rr evs h4
    obtain ⟨fname, st⟩ := p
    simp only [processProblems]
    by_cases h1 : st ∈ retryStates
    · rw [if_pos h1]
      by_cases h2 : st = rejState
      · rw [if_pos h2]
        by_cases h3 : numProblems = files.length
        · rw [if_pos h3]
          exact ⟨fun f hf => le_trans (h4 f hf) (by omega),
            fun hfalse => absurd hfalse (by simp)⟩
        · rw [if_neg h3]
          by_cases hlim : rr ≥ rejectedLimit files.length
          · rw [if_pos hlim]
            exact ⟨fun f hf => le_trans (h4 f hf) (by omega),
              fun hfalse => absurd hfalse (by simp)⟩
          · rw [if_neg hlim]
            split
            · exact ⟨(retryStepOn_bound requeue files evs fname h4).1,
                fun hfalse => absurd hfalse (by simp)⟩
            · next hnoab =>
              have hr4 : ∀ f ∈ (retryStepOn requeue files evs fname).1,
                  f.retry.getD 0 ≤ 4 :=
                (retryStepOn_bound requeue files evs fname h4).2
                  (Bool.not_eq_true _ ▸ eq_false_of_ne_true hnoab)
              exact ih _ _ _ hr4
      · rw [if_neg h2]
        split
        · exact ⟨(retryStepOn_bound requeue files evs fname h4).1,
            fun hfalse => absurd hfalse (by simp)⟩
        · next hnoab =>
          have hr4 : ∀ f ∈ (retryStepOn requeue files evs fname).1,
              f.retry.getD 0 ≤ 4 :=
            (retryStepOn_bound requeue files evs fname h4).2
              (Bool.not_eq_true _ ▸ eq_false_of_ne_true hnoab)
          exact ih _ _ _ hr4
    · rw [if_neg h1]
      exact ih files rr evs h4

/-- Every re-submission event recorded by the problem loop carries a retry
count below 5: a file is re-submitted only while its incremented retry
count is below 5. -/
theorem processProblems_events_lt5 (requeue : Nat → Option Nat) (numProblems : Nat) :
    ∀ (probs : List (String × String)) (files : List TrackedFile) (rr : Nat)
      (evs : List ReqEvent),
    (∀ e ∈ evs, e.retryAt < 5) →
    ∀ e ∈ (processProblems requeue numProblems probs files rr evs).requeued,
      e.retryAt < 5 := by
  intro probs
  induction probs with
  | nil => intro files rr evs hevs; exact hevs
  | cons p rest ih =>
    intro files rr evs hevs
    obtain ⟨fname, st⟩ := p
    have hstep : ∀ e ∈ (retryStepOn requeue files evs fname).2.1, e.retryAt < 5 := by
      intro e he
      rcases retryStepOn_evs requeue files evs fname e he with h | h
      · exact hevs e h
      · exact h
    simp only [processProblems]
    by_cases h1 : st ∈ retryStates
    · rw [if_pos h1]
      by_cases h2 : st = rejState
      · rw [if_pos h2]
        by_cases h3 : numProblems = files.length
        · rw [if_pos h3]
          exact hevs
        · rw [if_neg h3]
          by_cases hlim : rr ≥ rejectedLimit files.length
          · rw [if_pos hlim]
            exact hevs
          · rw [if_neg hlim]
            split
            · exact hstep
            · exact ih _ _ _ hstep
      · rw [if_neg h2]
        split
        · exact hstep
        · exact ih _ _ _ hstep
    · rw [if_neg h1]
      exact ih files rr evs hevs

/-- When the problem loop ends without an abort, every recorded
re-submission succeeded: a failed re-submission always aborts. -/
theorem processProblems_events_ok (requeue : Nat → Option Nat) (numProblems : Nat) :
    ∀ (probs : List (String × String)) (files : List TrackedFile) (rr : Nat)
      (evs : List ReqEvent),
    (∀ e ∈ evs, e.ok = true) →
    (processProblems requeue numProblems probs files rr evs).abort = false →
    ∀ e ∈ (processProblems requeue numProblems probs files rr evs).requeued,
      e.ok = true := by
  intro probs
  induction probs with
  | nil => intro files rr evs hevs _; exact hevs
  | cons p rest ih =>
    intro files rr evs hevs
    obtain ⟨fname, st⟩ := p
    simp only [processProblems]
    by_cases h1 : st ∈ retryStates
    · rw [if_pos h1]
      by_cases h2 : st = rejState
      · rw [if_pos h2]
        by_cases h3 : numProblems = files.length
        · rw [if_pos h3]
          intro hfalse
          exact absurd hfalse (by simp)
        · rw [if_neg h3]
          by_cases hlim : rr ≥ rejectedLimit files.length
          · rw [if_pos hlim]
            intro hfalse
            exact absurd hfalse (by simp)
          · rw [if_neg hlim]
            split
            · intro hfalse
              exact absurd hfalse (by simp)
            · next hnoab =>
              have hr : (retryStepOn requeue files evs fname).2.2 = false :=
                Bool.not_eq_true _ ▸ eq_false_of_ne_true hnoab
              have hok : ∀ e ∈ (retryStepOn requeue files evs fname).2.1,
                  e.ok = true := by
                intro e he
                rcases retryStepOn_evs_ok requeue files evs fname hr e he with h | h
                · exact hevs e h
                · exact h
              exact ih _ _ _ hok
      · rw [if_neg h2]
        split
        · intro hfalse
          exact absurd hfalse (by simp)
        · next hnoab =>
          have hr : (retryStepOn requeue files evs fname).2.2 = false :=
            Bool.not_eq_true _ ▸ eq_false_of_ne_true hnoab
          have hok : ∀ e ∈ (retryStepOn requeue files evs fname).2.1,
              e.ok = true := by
            intro e he
            rcases retryStepOn_evs_ok requeue files evs fname hr e he with h | h
            · exact hevs e h
            · exact h
          exact ih _ _ _ hok
    · rw [if_neg h1]
      exact ih files rr evs hevs

/-- When the problem list covers every file and contains a rejected entry,
the problem loop always aborts, whatever the rejection-retry counter is. -/
theorem processProblems_total_rejection (requeue : Nat → Option Nat)
    (numProblems : Nat) :
    ∀ (probs : List (String × String)) (files : List TrackedFile) (rr : Nat)
      (evs : List ReqEvent),
    (∃ p ∈ probs, p.2 = rejState) → numProblems = files.length →
    (processProblems requeue numProblems probs files rr evs).abort = true := by
  intro probs
  induction probs with
  | nil =>
    intro files rr evs hex _
    rcases hex with ⟨p, hp, _⟩
    cases hp
  | cons p rest ih =>
    intro files rr evs hex hnum
    obtain ⟨fname, st⟩ := p
    simp only [processProblems]
    by_cases h2 : st = rejState
    · have h1 : st ∈ retryStates := by rw [h2]; decide
      rw [if_pos h1, if_pos h2, if_pos hnum]
    · have hex' : ∃ p ∈ rest, p.2 = rejState := by
        rcases hex with ⟨q, hq, hqrej⟩
        rcases List.mem_cons.mp hq with hqh | hqr
        · rw [hqh] at hqrej
          exact absurd hqrej h2
        · exact ⟨q, hqr, hqrej⟩
      by_cases h1 : st ∈ retryStates
      · rw [if_pos h1, if_neg h2]
        split
        · rfl
        · exact ih _ _ _ hex'
            (hnum.trans (retryStepOn_length requeue files evs fname).symm)
      · rw [if_neg h1]
        exact ih _ _ _ hex' hnum

/-- With every failure status collected, the problem list covers every
file. -/
theorem downloads_all_done_problems_length (files : List TrackedFile)
    (hall : ∀ f ∈ files, ∃ st, f.status = some st ∧ st ∈ failStates) :
    (downloads_all_done files).problems.length = files.length := by
  induction files with
  | nil => rfl
  | cons f rest ih =>
    obtain ⟨st, hst, hmem⟩ := hall f (List.mem_cons_self f rest)
    simp only [downloads_all_done, hst]
    rw [if_pos hmem]
    simp only [List.length_append, List.length_cons, List.length_nil]
    rw [ih (fun g hg => hall g (List.mem_cons_of_mem f hg))]
    omega

/-- A file with a rejected status contributes a rejected problem entry. -/
theorem downloads_all_done_problem_mem (files : List TrackedFile)
    (f : TrackedFile) (hf : f ∈ files) (hrej : f.status = some rejState) :
    (f.filename, rejState) ∈ (downloads_all_done files).problems := by
  induction files with
  | nil => cases hf
  | cons g rest ih =>
    rcases List.mem_cons.mp hf with hfg | hfr
    · rw [hfg] at hrej ⊢
      simp only [downloads_all_done, hrej]
      rw [if_pos (by decide)]
      exact List.mem_append.mpr (Or.inl (List.mem_singleton.mpr rfl))
    · cases hgst : g.status with
      | none =>
        simp only [downloads_all_done, hgst]
        exact ih hfr
      | some st =>
        simp only [downloads_all_done, hgst]
        exact List.mem_append.mpr (Or.inr (ih hfr))

/-- When every reported status is the success state, no file is counted as
remotely queued and no file is a problem. -/
theorem downloads_all_done_allDone (files : List TrackedFile)
    (h : (downloads_all_done files).allDone = true) :
    (downloads_all_done files).remoteQueued = 0
    ∧ (downloads_all_done files).problems = [] := by
  induction files with
  | nil => exact ⟨rfl, rfl⟩
  | cons f rest ih =>
    cases hst : f.status with
    | none =>
      simp only [downloads_all_done, hst] at h ⊢
      exact ih h
    | some st =>
      simp only [downloads_all_done, hst] at h ⊢
      simp only [Bool.and_eq_true] at h
      obtain ⟨hsucc, hrest⟩ := h
      have hstv : st = succState := (beq_iff_eq).mp hsucc
      subst hstv
      rw [if_neg (by decide), if_neg (by decide)]
      simpa using ih hrest

/-- C6: if in one monitor tick every tracked file of a record reports a
terminal failure state and at least one reports rejected, the record is
aborted in that tick, regardless of the current rejectedRetries value: it
is removed from the grab list, the failure counter is incremented by 1,
and transfers are cancelled (the cancelled id list is non-empty). -/
theorem C6_total_rejection (cfg : MonitorCfg) (requeue : Nat → Option Nat)
    (b : BookDownload) (sts : List (Option String))
    (hne : refreshFiles b.files sts ≠ [])
    (hall : ∀ f ∈ refreshFiles b.files sts,
      ∃ st, f.status = some st ∧ st ∈ failStates)
    (hrej : ∃ f ∈ refreshFiles b.files sts, f.status = some rejState) :
    (process_record cfg requeue b sts).kept = none
    ∧ (process_record cfg requeue b sts).failedInc = 1
    ∧ (process_record cfg requeue b sts).cancelled ≠ [] := by
  have hlen0 : (refreshFiles b.files sts).length ≠ 0 :=
    fun h => hne (List.length_eq_zero.mp h)
  simp only [process_record]
  by_cases h1 : cfg.stalledTimeout ≤ cfg.now - b.countStart
  · rw [if_pos h1]
    refine ⟨rfl, rfl, ?_⟩
    simp only [ne_eq, List.map_eq_nil_iff]
    exact hne
  · rw [if_neg h1]
    by_cases h2 : (downloads_all_done (refreshFiles b.files sts)).remoteQueued
        = (refreshFiles b.files sts).length
      ∧ cfg.remoteQueueTimeout ≤ cfg.now - b.countStart
    · rw [if_pos h2]
      refine ⟨rfl, rfl, ?_⟩
      simp only [ne_eq, List.map_eq_nil_iff]
      exact hne
    · rw [if_neg h2]
      have hplen : (downloads_all_done (refreshFiles b.files sts)).problems.length
          = (refreshFiles b.files sts).length :=
        downloads_all_done_problems_length _ hall
      have hpne : (downloads_all_done (refreshFiles b.files sts)).problems ≠ [] := by
        intro hnil
        rw [hnil] at hplen
        exact hlen0 hplen.symm
      rw [if_pos hpne]
      obtain ⟨f, hfmem, hfrej⟩ := hrej
      have habort : (processProblems requeue
          (downloads_all_done (refreshFiles b.files sts)).problems.length
          (downloads_all_done (refreshFiles b.files sts)).problems
          (refreshFiles b.files sts) b.rejectedRetries []).abort = true :=
        processProblems_total_rejection requeue _ _ _ _ _
          ⟨(f.filename, rejState),
            downloads_all_done_problem_mem _ f hfmem hfrej, rfl⟩ hplen
      rw [if_pos habort]
      refine ⟨rfl, rfl, ?_⟩
      simp only [ne_eq, List.map_eq_nil_iff]
      intro hnil
      have := processProblems_length requeue
        (downloads_all_done (refreshFiles b.files sts)).problems.length
        (downloads_all_done (refreshFiles b.files sts)).problems
        (refreshFiles b.files sts) b.rejectedRetries []
      rw [hnil] at this
      exact hlen0 this.symm

/-- Witness for C6: three files, all rejected, rejectedRetries 0: the
record is aborted on that tick. -/
theorem C6_total_rejection_witness :
    (process_record ⟨3600, 300, 5⟩ (fun _ => none)
        ⟨"T", "u", "d", [⟨"a", 1, none, none⟩, ⟨"b", 2, none, none⟩,
          ⟨"c", 3, none, none⟩], 0, 0, 0⟩
        [some rejState, some rejState, some rejState]).kept = none
    ∧ (process_record ⟨3600, 300, 5⟩ (fun _ => none)
        ⟨"T", "u", "d", [⟨"a", 1, none, none⟩, ⟨"b", 2, none, none⟩,
          ⟨"c", 3, none, none⟩], 0, 0, 0⟩
        [some rejState, some rejState, some rejState]).failedInc = 1
    ∧ (process_record ⟨3600, 300, 5⟩ (fun _ => none)
        ⟨"T", "u", "d", [⟨"a", 1, none, none⟩, ⟨"b", 2, none, none⟩,
          ⟨"c", 3, none, none⟩], 0, 0, 0⟩
        [some rejState, some rejState, some rejState]).cancelled ≠ [] :=
  C6_total_rejection ⟨3600, 300, 5⟩ (fun _ => none) _ _ (by decide)
    (by
      intro f hf
      fin_cases hf <;> exact ⟨rejState, rfl, by decide⟩)
    (by decide)

/-- C5: the retry policy of the Download Monitor.  Within one tick the
retry count of every tracked file is non-decreasing (so it never decreases
across ticks); when every count is at most 4 on entry, every count stays
at most 5 during the tick and at most 4 whenever the record survives; a
file is re-submitted only while its incremented retry count is below 5;
and a failed re-submission aborts the whole record, as does a count
reaching 5 (a kept record never holds a count above 4). -/
theorem C5_retry_policy (cfg : MonitorCfg) (requeue : Nat → Option Nat)
    (b : BookDownload) (sts : List (Option String)) :
    (retryLe (refreshFiles b.files sts)
      (processProblems requeue
        (downloads_all_done (refreshFiles b.files sts)).problems.length
        (downloads_all_done (refreshFiles b.files sts)).problems
        (refreshFiles b.files sts) b.rejectedRetries []).files)
    ∧ ((∀ f ∈ refreshFiles b.files sts, f.retry.getD 0 ≤ 4) →
        (∀ f ∈ (processProblems requeue
            (downloads_all_done (refreshFiles b.files sts)).problems.length
            (downloads_all_done (refreshFiles b.files sts)).problems
            (refreshFiles b.files sts) b.rejectedRetries []).files,
          f.retry.getD 0 ≤ 5)
        ∧ ((processProblems requeue
              (downloads_all_done (refreshFiles b.files sts)).problems.length
              (downloads_all_done (refreshFiles b.files sts)).problems
              (refreshFiles b.files sts) b.rejectedRetries []).abort = false →
            ∀ f ∈ (processProblems requeue
                (downloads_all_done (refreshFiles b.files sts)).problems.length
                (downloads_all_done (refreshFiles b.files sts)).problems
                (refreshFiles b.files sts) b.rejectedRetries []).files,
              f.retry.getD 0 ≤ 4))
    ∧ (∀ e ∈ (processProblems requeue
          (downloads_all_done (refreshFiles b.files sts)).problems.length
          (downloads_all_done (refreshFiles b.files sts)).problems
          (refreshFiles b.files sts) b.rejectedRetries []).requeued,
        e.retryAt < 5)
    ∧ ((∃ e ∈ (processProblems requeue
          (downloads_all_done (refreshFiles b.files sts)).problems.length
          (downloads_all_done (refreshFiles b.files sts)).problems
          (refreshFiles b.files sts) b.rejectedRetries []).requeued,
          e.ok = false) →
        (processProblems requeue
          (downloads_all_done (refreshFiles b.files sts)).problems.length
          (downloads_all_done (refreshFiles b.files sts)).problems
          (refreshFiles b.files sts) b.rejectedRetries []).abort = true)
    ∧ (∀ b', (process_record cfg requeue b sts).kept = some b' →
        retryLe (refreshFiles b.files sts) b'.files
        ∧ ((∀ f ∈ refreshFiles b.files sts, f.retry.getD 0 ≤ 4) →
            ∀ f ∈ b'.files, f.retry.getD 0 ≤ 4)) := by
  refine ⟨processProblems_retryLe requeue _ _ _ _ _,
    fun h4 => processProblems_bound requeue _ _ _ _ _ h4,
    processProblems_events_lt5 requeue _ _ _ _ _ (fun e he => absurd he
      (List.not_mem_nil e)),
    ?_, ?_⟩
  · rintro ⟨e, he, hnok⟩
    by_contra hab
    have habf : (processProblems requeue
        (downloads_all_done (refreshFiles b.files sts)).problems.length
        (downloads_all_done (refreshFiles b.files sts)).problems
        (refreshFiles b.files sts) b.rejectedRetries []).abort = false :=
      Bool.not_eq_true _ ▸ eq_false_of_ne_true hab
    have := processProblems_events_ok requeue _ _ _ _ _
      (fun e he => absurd he (List.not_mem_nil e)) habf e he
    rw [this] at hnok
    cases hnok
  · intro b' hb'
    revert hb'
    simp only [process_record]
    by_cases h1 : cfg.stalledTimeout ≤ cfg.now - b.countStart
    · rw [if_pos h1]
      intro hb'
      cases hb'
    · rw [if_neg h1]
      by_cases h2 : (downloads_all_done (refreshFiles b.files sts)).remoteQueued
          = (refreshFiles b.files sts).length
        ∧ cfg.remoteQueueTimeout ≤ cfg.now - b.countStart
      · rw [if_pos h2]
        intro hb'
        cases hb'
      · rw [if_neg h2]
        by_cases h3 : (downloads_all_done (refreshFiles b.files sts)).problems ≠ []
        · rw [if_pos h3]
          by_cases h4 : (processProblems requeue
              (downloads_all_done (refreshFiles b.files sts)).problems.length
              (downloads_all_done (refreshFiles b.files sts)).problems
              (refreshFiles b.files sts) b.rejectedRetries []).abort = true
          · rw [if_pos h4]
            intro hb'
            cases hb'
          · rw [if_neg h4]
            intro hb'
            have hfiles : b'.files = (processProblems requeue
                (downloads_all_done (refreshFiles b.files sts)).problems.length
                (downloads_all_done (refreshFiles b.files sts)).problems
                (refreshFiles b.files sts) b.rejectedRetries []).files := by
              cases hb'
              rfl
            rw [hfiles]
            refine ⟨processProblems_retryLe requeue _ _ _ _ _, fun hle4 => ?_⟩
            exact (processProblems_bound requeue _ _ _ _ _ hle4).2
              (Bool.not_eq_true _ ▸ eq_false_of_ne_true h4)
        · rw [if_neg h3]
          intro hb'
          have hfiles : b'.files = refreshFiles b.files sts := by
            cases hb'
            rfl
          rw [hfiles]
          exact ⟨retryLe_refl _, fun hle4 => hle4⟩

/-- Witness for C5: one errored file with no prior retries, a succeeding
re-submission oracle: the instantiated retry bounds and event properties
hold. -/
theorem C5_retry_policy_witness :
    (∀ f ∈ (processProblems (fun _ => some 9)
        (downloads_all_done (refreshFiles
          [⟨"a", 1, none, none⟩] [some "Completed, Errored"])).problems.length
        (downloads_all_done (refreshFiles
          [⟨"a", 1, none, none⟩] [some "Completed, Errored"])).problems
        (refreshFiles [⟨"a", 1, none, none⟩] [some "Completed, Errored"]) 0 []).files,
      f.retry.getD 0 ≤ 5)
    ∧ (∀ e ∈ (processProblems (fun _ => some 9)
        (downloads_all_done (refreshFiles
          [⟨"a", 1, none, none⟩] [some "Completed, Errored"])).problems.length
        (downloads_all_done (refreshFiles
          [⟨"a", 1, none, none⟩] [some "Completed, Errored"])).problems
        (refreshFiles [⟨"a", 1, none, none⟩] [some "Completed, Errored"]) 0 []).requeued,
      e.retryAt < 5) :=
  ⟨((C5_retry_policy ⟨3600, 300, 5⟩ (fun _ => some 9)
      ⟨"T", "u", "d", [⟨"a", 1, none, none⟩], 0, 0, 0⟩
      [some "Completed, Errored"]).2.1 (by decide)).1,
   (C5_retry_policy ⟨3600, 300, 5⟩ (fun _ => some 9)
      ⟨"T", "u", "d", [⟨"a", 1, none, none⟩], 0, 0, 0⟩
      [some "Completed, Errored"]).2.2.1⟩

/-- C1 counterexample: a record whose only file reports succeeded, with no
timeout, is NOT removed from the active set in that tick: the monitor
keeps it in the grab list (succeeded records are removed only by the loop
ending; aborts are the only removals). -/
theorem C1_counterexample :
    (monitor_tick ⟨3600, 300, 5⟩
        [⟨"T", "u", "d", [⟨"f", 1, none, none⟩], 0, 0, 0⟩]
        [([some succState], fun _ => none)]).1 ≠ []
    ∧ (∀ rec ∈ (monitor_tick ⟨3600, 300, 5⟩
        [⟨"T", "u", "d", [⟨"f", 1, none, none⟩], 0, 0, 0⟩]
        [([some succState], fun _ => none)]).1,
        (downloads_all_done rec.files).allDone = true)
    ∧ (monitor_tick ⟨3600, 300, 5⟩
        [⟨"T", "u", "d", [⟨"f", 1, none, none⟩], 0, 0, 0⟩]
        [([some succState], fun _ => none)]).2.1 = 0 := by
  refine ⟨by decide, by decide, by decide⟩

/-- C1 (amended): a record is removed from the active set exactly when it
is aborted (removal and the failure-counter increment coincide); when all
files report succeeded and no timeout has expired, the record is kept in
the grab list, counted as finished (unfinished increment 0), and not
counted as failed — the monitor loop then terminates once every record is
finished, leaving succeeded records in the list. -/
theorem C1_removal (cfg : MonitorCfg) (requeue : Nat → Option Nat)
    (b : BookDownload) (sts : List (Option String)) :
    ((process_record cfg requeue b sts).kept = none ↔
      (process_record cfg requeue b sts).failedInc = 1)
    ∧ (refreshFiles b.files sts ≠ [] →
       cfg.now - b.countStart < cfg.stalledTimeout →
       (downloads_all_done (refreshFiles b.files sts)).allDone = true →
       (process_record cfg requeue b sts).kept ≠ none
       ∧ (process_record cfg requeue b sts).failedInc = 0
       ∧ (process_record cfg requeue b sts).unfinishedInc = 0)
    ∧ monitor_tick cfg [b] [(sts, requeue)] =
        ((process_record cfg requeue b sts).kept.toList,
         (process_record cfg requeue b sts).failedInc,
         (process_record cfg requeue b sts).unfinishedInc) := by
  refine ⟨?_, ?_, ?_⟩
  · simp only [process_record]
    by_cases h1 : cfg.stalledTimeout ≤ cfg.now - b.countStart
    · rw [if_pos h1]
      simp
    · rw [if_neg h1]
      by_cases h2 : (downloads_all_done (refreshFiles b.files sts)).remoteQueued
          = (refreshFiles b.files sts).length
        ∧ cfg.remoteQueueTimeout ≤ cfg.now - b.countStart
      · rw [if_pos h2]
        simp
      · rw [if_neg h2]
        by_cases h3 : (downloads_all_done (refreshFiles b.files sts)).problems ≠ []
        · rw [if_pos h3]
          by_cases h4 : (processProblems requeue
              (downloads_all_done (refreshFiles b.files sts)).problems.length
              (downloads_all_done (refreshFiles b.files sts)).problems
              (refreshFiles b.files sts) b.rejectedRetries []).abort = true
          · rw [if_pos h4]
            simp
          · rw [if_neg h4]
            simp
        · rw [if_neg h3]
          simp
  · intro hne hlt hdone
    have h1 : ¬ cfg.stalledTimeout ≤ cfg.now - b.countStart := not_le.mpr hlt
    have hq0 : (downloads_all_done (refreshFiles b.files sts)).remoteQueued = 0 :=
      (downloads_all_done_allDone _ hdone).1
    have hp0 : (downloads_all_done (refreshFiles b.files sts)).problems = [] :=
      (downloads_all_done_allDone _ hdone).2
    have hlen0 : (refreshFiles b.files sts).length ≠ 0 :=
      fun h => hne (List.length_eq_zero.mp h)
    have h2 : ¬ ((downloads_all_done (refreshFiles b.files sts)).remoteQueued
          = (refreshFiles b.files sts).length
        ∧ cfg.remoteQueueTimeout ≤ cfg.now - b.countStart) := by
      rintro ⟨hq, _⟩
      rw [hq0] at hq
      exact hlen0 hq.symm
    simp only [process_record]
    rw [if_neg h1, if_neg h2, if_neg (by simp [hp0]), hdone]
    exact ⟨by simp, rfl, rfl⟩
  · simp only [monitor_tick, List.zip_cons_cons, List.zip_nil_right,
      List.foldl_cons, List.foldl_nil, List.nil_append, Nat.zero_add]

/-- Witness for C1 (amended) at a concrete all-succeeded record. -/
theorem C1_removal_witness :
    (process_record ⟨3600, 300, 5⟩ (fun _ => none)
        ⟨"T", "u", "d", [⟨"f", 1, none, none⟩], 0, 0, 0⟩ [some succState]).kept ≠ none
    ∧ (process_record ⟨3600, 300, 5⟩ (fun _ => none)
        ⟨"T", "u", "d", [⟨"f", 1, none, none⟩], 0, 0, 0⟩ [some succState]).failedInc = 0
    ∧ (process_record ⟨3600, 300, 5⟩ (fun _ => none)
        ⟨"T", "u", "d", [⟨"f", 1, none, none⟩], 0, 0, 0⟩
        [some succState]).unfinishedInc = 0 :=
  (C1_removal ⟨3600, 300, 5⟩ (fun _ => none)
    ⟨"T", "u", "d", [⟨"f", 1, none, none⟩], 0, 0, 0⟩ [some succState]).2.1
    (by decide) (by decide) (by decide)

/-- Witness for C4 at concrete inputs: a matching lower-case filetype is
accepted, and with no candidate of the requested filetype book_match
returns none. -/
theorem C4_filetype_filter_witness :
    verify_filetype ⟨("x.epub").toList⟩ ("epub").toList = true
    ∧ book_match ⟨("t").toList, ("a").toList⟩ [⟨("a.pdf").toList⟩] ("u").toList
        ("epub").toList [] (1 / 2) = none :=
  ⟨(C4_filetype_filter ⟨("x.epub").toList⟩ ("epub").toList ⟨[], []⟩ [] [] [] [] 0).1.mpr
      (by decide),
   (C4_filetype_filter ⟨[]⟩ [] ⟨("t").toList, ("a").toList⟩ [⟨("a.pdf").toList⟩]
      ("u").toList ("epub").toList [] (1 / 2)).2 (by decide)⟩

/-- Every lower-case image of an upper-case letter is fixed by the
lower-casing map. -/
theorem pyLowerCh_pairs_fixed : ∀ q ∈ upperPairs, pyLowerCh q.2 = q.2 := by decide

/-- The character lower-casing map is idempotent. -/
theorem pyLowerCh_idem (c : Char) : pyLowerCh (pyLowerCh c) = pyLowerCh c := by
  cases hfind : upperPairs.find? (fun p => p.1 = c) with
  | none =>
    have h1 : pyLowerCh c = c := by simp [pyLowerCh, hfind]
    rw [h1]
    exact h1
  | some p =>
    have hp : p ∈ upperPairs := List.mem_of_find?_eq_some hfind
    have h1 : pyLowerCh c = p.2 := by simp [pyLowerCh, hfind]
    rw [h1]
    exact pyLowerCh_pairs_fixed p hp

/-- The character-wise normalization step is idempotent. -/
theorem stepCh_idem (c : Char) : stepCh (stepCh c) = stepCh c := by
  have hylow : pyLowerCh (pyLowerCh c) = pyLowerCh c := pyLowerCh_idem c
  unfold stepCh
  generalize hy : pyLowerCh c = y at hylow ⊢
  by_cases hu : y = '_'
  · subst hu
    decide
  · have h1 : usCh y = y := by simp [usCh, hu]
    rw [h1]
    by_cases hw : (isWordCh y || isSpaceCh y) = true
    · have h2 : punctCh y = y := by simp [punctCh, hw]
      rw [h2, hylow, h1, h2]
    · have h2 : punctCh y = ' ' := by
        simp only [punctCh]
        rw [if_neg]
        simpa using hw
      rw [h2]
      decide

/-- Equation for the whitespace collapse on a singleton. -/
theorem cws_single (c : Char) :
    collapseWS [c] = if isSpaceCh c then [' '] else [c] := rfl

/-- Equation for the whitespace collapse on two or more characters. -/
theorem cws_cons (c1 c2 : Char) (rest : List Char) :
    collapseWS (c1 :: c2 :: rest) =
      if isSpaceCh c1 then
        if isSpaceCh c2 then collapseWS (c2 :: rest)
        else ' ' :: collapseWS (c2 :: rest)
      else c1 :: collapseWS (c2 :: rest) := rfl

/-- Characters of the collapsed string are spaces or come from the
input. -/
theorem mem_collapseWS : ∀ (l : List Char) (c : Char),
    c ∈ collapseWS l → c = ' ' ∨ c ∈ l := by
  intro l
  induction l with
  | nil => intro c hc; cases hc
  | cons c1 t ih =>
    cases t with
    | nil =>
      intro c hc
      rw [cws_single] at hc
      by_cases hs : isSpaceCh c1 = true
      · rw [if_pos hs] at hc
        exact Or.inl (List.mem_singleton.mp hc)
      · rw [if_neg hs] at hc
        exact Or.inr hc
    | cons c2 rest =>
      intro c hc
      rw [cws_cons] at hc
      by_cases h1 : isSpaceCh c1 = true
      · rw [if_pos h1] at hc
        by_cases h2 : isSpaceCh c2 = true
        · rw [if_pos h2] at hc
          rcases ih c hc with h | h
          · exact Or.inl h
          · exact Or.inr (List.mem_cons_of_mem _ h)
        · rw [if_neg h2] at hc
          rcases List.mem_cons.mp hc with h | h
          · exact Or.inl h
          · rcases ih c h with h' | h'
            · exact Or.inl h'
            · exact Or.inr (List.mem_cons_of_mem _ h')
      · rw [if_neg h1] at hc
        rcases List.mem_cons.mp hc with h | h
        · exact Or.inr (h ▸ List.mem_cons_self _ _)
        · rcases ih c h with h' | h'
          · exact Or.inl h'
          · exact Or.inr (List.mem_cons_of_mem _ h')

/-- Every whitespace character of a collapsed string is the plain space. -/
theorem collapseWS_spacesOnly : ∀ (l : List Char), ∀ c ∈ collapseWS l,
    isSpaceCh c = true → c = ' ' := by
  intro l
  induction l with
  | nil => intro c hc; cases hc
  | cons c1 t ih =>
    cases t with
    | nil =>
      intro c hc hs
      rw [cws_single] at hc
      by_cases h1 : isSpaceCh c1 = true
      · rw [if_pos h1] at hc
        exact List.mem_singleton.mp hc
      · rw [if_neg h1] at hc
        rw [List.mem_singleton.mp hc] at hs
        exact absurd hs h1
    | cons c2 rest =>
      intro c hc hs
      rw [cws_cons] at hc
      by_cases h1 : isSpaceCh c1 = true
      · rw [if_pos h1] at hc
        by_cases h2 : isSpaceCh c2 = true
        · rw [if_pos h2] at hc
          exact ih c hc hs
        · rw [if_neg h2] at hc
          rcases List.mem_cons.mp hc with h | h
          · exact h
          · exact ih c h hs
      · rw [if_neg h1] at hc
        rcases List.mem_cons.mp hc with h | h
        · rw [h] at hs
          exact absurd hs h1
        · exact ih c h hs

/-- Equation for the adjacency check on two or more characters. -/
theorem noAdjB_cons2 (c1 c2 : Char) (rest : List Char) :
    noAdjB (c1 :: c2 :: rest)
      = ((!(isSpaceCh c1 && isSpaceCh c2)) && noAdjB (c2 :: rest)) := rfl

/-- The adjacency check only looks at the tail after the head. -/
theorem noAdjB_tail {c : Char} {t : List Char} (h : noAdjB (c :: t) = true) :
    noAdjB t = true := by
  cases t with
  | nil => rfl
  | cons c2 rest =>
    rw [noAdjB_cons2] at h
    simp only [Bool.and_eq_true] at h
    exact h.2

/-- A collapsed string headed by a non-space character keeps that head. -/
theorem cws_head_nonspace (rest : List Char) (c2 : Char)
    (h : isSpaceCh c2 = false) :
    ∃ t', collapseWS (c2 :: rest) = c2 :: t' := by
  cases rest with
  | nil =>
    rw [cws_single, if_neg (by simp [h])]
    exact ⟨[], rfl⟩
  | cons c3 r =>
    rw [cws_cons, if_neg (by simp [h])]
    exact ⟨_, rfl⟩

/-- The collapsed string never holds two adjacent whitespace characters. -/
theorem collapseWS_noAdj : ∀ l : List Char, noAdjB (collapseWS l) = true := by
  intro l
  induction l with
  | nil => rfl
  | cons c1 t ih =>
    cases t with
    | nil =>
      rw [cws_single]
      split <;> rfl
    | cons c2 rest =>
      rw [cws_cons]
      by_cases h1 : isSpaceCh c1 = true
      · rw [if_pos h1]
        by_cases h2 : isSpaceCh c2 = true
        · rw [if_pos h2]
          exact ih
        · rw [if_neg h2]
          have h2f : isSpaceCh c2 = false := by simpa using h2
          obtain ⟨t', ht'⟩ := cws_head_nonspace rest c2 h2f
          rw [ht']
          rw [noAdjB_cons2]
          have hta : noAdjB (c2 :: t') = true := ht' ▸ ih
          simp [h2f, hta]
      · rw [if_neg h1]
        have h1f : isSpaceCh c1 = false := by simpa using h1
        cases hx : collapseWS (c2 :: rest) with
        | nil => rfl
        | cons d t' =>
          rw [noAdjB_cons2]
          have hta : noAdjB (d :: t') = true := hx ▸ ih
          simp [h1f, hta]

/-- A string whose whitespace is single plain spaces with no two adjacent
is a fixed point of the collapse. -/
theorem collapseWS_fixed : ∀ l : List Char,
    (∀ c ∈ l, isSpaceCh c = true → c = ' ') → noAdjB l = true →
    collapseWS l = l := by
  intro l
  induction l with
  | nil => intro _ _; rfl
  | cons c1 t ih =>
    cases t with
    | nil =>
      intro hsp _
      rw [cws_single]
      by_cases h1 : isSpaceCh c1 = true
      · rw [if_pos h1, hsp c1 (List.mem_cons_self _ _) h1]
      · rw [if_neg h1]
    | cons c2 rest =>
      intro hsp hadj
      rw [noAdjB_cons2] at hadj
      simp only [Bool.and_eq_true] at hadj
      obtain ⟨hh, ht⟩ := hadj
      have hrec : collapseWS (c2 :: rest) = c2 :: rest :=
        ih (fun c hc hs => hsp c (List.mem_cons_of_mem _ hc) hs) ht
      rw [cws_cons]
      by_cases h1 : isSpaceCh c1 = true
      · have h2 : isSpaceCh c2 = false := by
          simp [h1] at hh
          exact hh
        rw [if_pos h1, if_neg (by simp [h2]), hrec,
          hsp c1 (List.mem_cons_self _ _) h1]
      · rw [if_neg h1, hrec]

/-- Equation for rstrip on a cons cell. -/
theorem rstrip_cons (c : Char) (t : List Char) :
    rstrip (c :: t) = if rstrip t = [] ∧ isSpaceCh c then [] else c :: rstrip t :=
  rfl

/-- Characters of the right-stripped string come from the input. -/
theorem mem_rstrip : ∀ (l : List Char) (c : Char), c ∈ rstrip l → c ∈ l := by
  intro l
  induction l with
  | nil => intro c hc; cases hc
  | cons d t ih =>
    intro c hc
    rw [rstrip_cons] at hc
    by_cases h : rstrip t = [] ∧ isSpaceCh d
    · rw [if_pos h] at hc
      cases hc
    · rw [if_neg h] at hc
      rcases List.mem_cons.mp hc with h' | h'
      · exact h' ▸ List.mem_cons_self _ _
      · exact List.mem_cons_of_mem _ (ih c h')

/-- rstrip is idempotent. -/
theorem rstrip_idem : ∀ l : List Char, rstrip (rstrip l) = rstrip l := by
  intro l
  induction l with
  | nil => rfl
  | cons c t ih =>
    rw [rstrip_cons]
    by_cases h : rstrip t = [] ∧ isSpaceCh c
    · rw [if_pos h]
      rfl
    · rw [if_neg h, rstrip_cons, ih, if_neg h]

/-- rstrip is empty or keeps the head of its input. -/
theorem rstrip_head (l : List Char) :
    rstrip l = [] ∨ (rstrip l).head? = l.head? := by
  cases l with
  | nil => exact Or.inl rfl
  | cons c t =>
    rw [rstrip_cons]
    by_cases h : rstrip t = [] ∧ isSpaceCh c
    · rw [if_pos h]
      exact Or.inl rfl
    · rw [if_neg h]
      exact Or.inr rfl

/-- rstrip never creates an adjacency of whitespace characters. -/
theorem noAdjB_rstrip : ∀ l : List Char, noAdjB l = true →
    noAdjB (rstrip l) = true := by
  intro l
  induction l with
  | nil => intro _; rfl
  | cons c t ih =>
    intro h
    rw [rstrip_cons]
    by_cases hc : rstrip t = [] ∧ isSpaceCh c
    · rw [if_pos hc]
      rfl
    · rw [if_neg hc]
      have hrt : noAdjB (rstrip t) = true := ih (noAdjB_tail h)
      cases hx : rstrip t with
      | nil => rfl
      | cons d t' =>
        cases t with
        | nil => simp [rstrip] at hx
        | cons e t2 =>
          have hde : d = e := by
            rcases rstrip_head (e :: t2) with h0 | h0
            · rw [h0] at hx
              cases hx
            · rw [hx] at h0
              simpa using h0
          subst hde
          rw [noAdjB_cons2]
          rw [noAdjB_cons2] at h
          simp only [Bool.and_eq_true] at h
          have hta : noAdjB (d :: t') = true := hx ▸ hrt
          simp only [hta, Bool.and_true]
          by_cases hcs : isSpaceCh c = true
          · by_cases hds : isSpaceCh d = true
            · exfalso
              have hcd := h.1
              rw [hcs, hds] at hcd
              simp at hcd
            · simp [hds]
          · simp [hcs]

/-- dropWhile never creates an adjacency of whitespace characters. -/
theorem noAdjB_dropWhile (p : Char → Bool) : ∀ l : List Char,
    noAdjB l = true → noAdjB (l.dropWhile p) = true := by
  intro l
  induction l with
  | nil => intro _; rfl
  | cons c t ih =>
    intro h
    rw [List.dropWhile_cons]
    by_cases hp : p c = true
    · rw [if_pos hp]
      exact ih (noAdjB_tail h)
    · rw [if_neg hp]
      exact h

/-- The head surviving dropWhile fails the predicate. -/
theorem dropWhile_head_not (p : Char → Bool) : ∀ (l : List Char) (c : Char),
    (l.dropWhile p).head? = some c → p c = false := by
  intro l
  induction l with
  | nil => intro c hc; cases hc
  | cons d t ih =>
    intro c hc
    rw [List.dropWhile_cons] at hc
    by_cases hp : p d = true
    · rw [if_pos hp] at hc
      exact ih c hc
    · rw [if_neg hp] at hc
      have : c = d := by simpa using hc.symm
      rw [this]
      simpa using hp

/-- dropWhile is the identity when the head already fails the predicate. -/
theorem dropWhile_head_false (p : Char → Bool) (c : Char) (t : List Char)
    (h : p c = false) : (c :: t).dropWhile p = c :: t := by
  rw [List.dropWhile_cons, if_neg (by simp [h])]

/-- Characters of the stripped string come from the input. -/
theorem mem_pyStrip (l : List Char) (c : Char) (hc : c ∈ pyStrip l) : c ∈ l :=
  (List.dropWhile_sublist _).subset (mem_rstrip _ c hc)

/-- Python strip is idempotent. -/
theorem pyStrip_idem (l : List Char) : pyStrip (pyStrip l) = pyStrip l := by
  unfold pyStrip
  rcases rstrip_head (l.dropWhile isSpaceCh) with h0 | h0
  · rw [h0]
    rfl
  · cases hx : rstrip (l.dropWhile isSpaceCh) with
    | nil => rfl
    | cons d t' =>
      have hd : (l.dropWhile isSpaceCh).head? = some d := by
        rw [hx] at h0
        exact h0.symm
      have hpd : isSpaceCh d = false := dropWhile_head_not isSpaceCh l d hd
      rw [dropWhile_head_false isSpaceCh d t' hpd, ← hx]
      exact rstrip_idem _

/-- A map whose function fixes every member is the identity. -/
theorem map_mem_fixed {f : Char → Char} : ∀ l : List Char,
    (∀ c ∈ l, f c = c) → l.map f = l := by
  intro l
  induction l with
  | nil => intro _; rfl
  | cons c t ih =>
    intro h
    rw [List.map_cons, h c (List.mem_cons_self _ _),
      ih (fun d hd => h d (List.mem_cons_of_mem _ hd))]

/-- Every character of a normalized string is fixed by the normalization
step. -/
theorem normalize_chars_fixed (s : Str) :
    ∀ c ∈ normalize_for_matching s, stepCh c = c := by
  intro c hc
  have h1 : c ∈ collapseWS (s.map stepCh) := mem_pyStrip _ c hc
  rcases mem_collapseWS _ c h1 with h | h
  · rw [h]
    decide
  · rcases List.mem_map.mp h with ⟨d, _, hd⟩
    rw [← hd]
    exact stepCh_idem d

/-- C9: normalize_for_matching is idempotent: normalizing an already
normalized string changes nothing, since every character of the output is
fixed by the character-wise step, the output has no two adjacent
whitespace characters and only plain spaces as whitespace, and it carries
no leading or trailing whitespace. -/
theorem C9_normalize_idempotent (s : Str) :
    normalize_for_matching (normalize_for_matching s) = normalize_for_matching s := by
  have hmap : (normalize_for_matching s).map stepCh = normalize_for_matching s :=
    map_mem_fixed _ (normalize_chars_fixed s)
  have hsp : ∀ c ∈ normalize_for_matching s, isSpaceCh c = true → c = ' ' := by
    intro c hc hs
    exact collapseWS_spacesOnly _ c (mem_pyStrip _ c hc) hs
  have hadj : noAdjB (normalize_for_matching s) = true :=
    noAdjB_rstrip _ (noAdjB_dropWhile isSpaceCh _ (collapseWS_noAdj _))
  show pyStrip (collapseWS ((normalize_for_matching s).map stepCh))
      = normalize_for_matching s
  rw [hmap, collapseWS_fixed _ hsp hadj]
  exact pyStrip_idem _

end RSoul
